import Mathlib

/-!
The tup dependency-graph store (`src/tup/db.c`).

A shallow embedding of the node / link / config store that `db.c` keeps in an
SQLite database, and the properties of its operations.

Modelling conventions.

* The three tables are lists of rows in the order the engine scans them; a
  `select` yields rows in that order, an `insert` appends.
* `tupid_t` is a signed 64-bit integer and `int` a signed 32-bit integer; both
  are `Int` here and every C conversion to `int` is an explicit `wrap32`.
* A C string is a `String` with one `Char` per byte; `sqlite3_bind_text` with a
  length keeps that many leading bytes, with a negative length the whole string.
  Name pointers are non-NULL.
* Every execution of a prepared statement consults `Db.faults`: the head says
  whether the engine reports an error for this execution (the statement then
  has no effect).  `faults = []` is the error-free backend.
* `node.id` is the rowid of the node table.  The hidden rowids of the link and
  config tables are not kept: `sqlite3_last_insert_rowid` is read only right
  after a successful insert into `node`, and `Db.last_insert_rowid` is that
  value.
* `begin` takes a snapshot of the tables, `rollback` puts it back; the engine
  has flat transactions.
* The constants of `db.h` are not part of the file and are the fields of
  `Consts`; the `GLOB` operator of the engine is a parameter where it is used.
-/

namespace Tup

/-! ## C integers -/

/-- Conversion of an integer to the C type `int` (two's complement, 32 bits). -/
def wrap32 (x : Int) : Int := (x + 2147483648) % 4294967296 - 2147483648

/-- The bit pattern of a C `int`. -/
def toU32 (x : Int) : Nat := (x % 4294967296).toNat

/-- The C `int` with a given 32-bit pattern. -/
def ofU32 (u : Nat) : Int := if u < 2147483648 then (u : Int) else (u : Int) - 4294967296

/-- The C expression `a & b` on `int`. -/
def int_and (a b : Int) : Int := ofU32 (Nat.land (toU32 a) (toU32 b))

/-- The C expression `~a` on `int`. -/
def int_not (a : Int) : Int := -a - 1

/-- The bit pattern of an SQL integer (64 bits). -/
def toU64 (x : Int) : Nat := (x % 18446744073709551616).toNat

/-- The SQL integer with a given 64-bit pattern. -/
def ofU64 (u : Nat) : Int :=
  if u < 9223372036854775808 then (u : Int) else (u : Int) - 18446744073709551616

/-- The SQL expression `a | b` on 64-bit integers. -/
def sql_or (a b : Int) : Int := ofU64 (Nat.lor (toU64 a) (toU64 b))

/-- The largest rowid of the engine. -/
def INT64_MAX : Int := 9223372036854775807

/-- The values of a C `int`. -/
def isInt (x : Int) : Prop := -2147483648 ≤ x ∧ x ≤ 2147483647

instance (x : Int) : Decidable (isInt x) := by unfold isInt; infer_instance

/-! ## Data model -/

/-- The constants `db.h` declares (`TUP_FLAGS_*`, `TUP_NODE_*`). -/
structure Consts where
  TUP_FLAGS_DELETE : Int
  TUP_NODE_FILE : Int
  TUP_NODE_DIR : Int
  TUP_NODE_CMD : Int
deriving DecidableEq, Repr

/-- A row of `node (id integer primary key not null, dir, type, flags, name)`. -/
structure Node where
  id : Int
  dir : Int
  type : Int
  flags : Int
  name : String
deriving DecidableEq, Repr

/-- A row of `link (from_id integer, to_id integer)`. -/
structure Link where
  from_id : Int
  to_id : Int
deriving DecidableEq, Repr

/-- A row of `config (lval varchar(256) unique, rval varchar(256))`. -/
structure Config where
  lval : String
  rval : String
deriving DecidableEq, Repr

/-- The contents of the three tables. -/
structure Tables where
  node : List Node
  link : List Link
  config : List Config
deriving DecidableEq, Repr

/-- The connection `tup_db`: the tables, the rowid of the last insert into
`node`, the snapshot of an open transaction, and the upcoming engine errors. -/
structure Db where
  node : List Node
  link : List Link
  config : List Config
  last_insert_rowid : Int
  txn : Option Tables
  faults : List Bool
deriving DecidableEq, Repr

/-- The tables of a connection. -/
def Db.tables (db : Db) : Tables := ⟨db.node, db.link, db.config⟩

/-- The C `struct db_node`, initialised in the source as `{-1, -1, NULL, 0, 0}`. -/
structure db_node where
  tupid : Int
  dt : Int
  name : Option String
  type : Int
  flags : Int
deriving DecidableEq, Repr

/-! ## Engine primitives -/

/-- One execution of a prepared statement: `true` when the engine reports no
error; the consulted outcome is consumed. -/
def sqlite3_step (db : Db) : Bool × Db :=
  match db.faults with
  | [] => (true, db)
  | f :: fs => (!f, { db with faults := fs })

/-- The text bound by `sqlite3_bind_text(stmt, i, name, len, ...)`. -/
def bind_text (name : String) (len : Int) : String :=
  if len < 0 then name else String.mk (name.data.take len.toNat)

/-- The rowid the engine gives a row inserted without one: 1 in an empty
table, otherwise one more than the largest rowid in use.  This describes the
engine while the largest rowid is below `INT64_MAX`.  At `INT64_MAX` the
engine probes unused rowids at random and reports `SQLITE_FULL` only when it
finds none; that choice has no deterministic description, the answer `none`
(the insert fails) stands in for it, and the statements about inserted rows
are made for tables whose rowids are below `INT64_MAX`. -/
def new_rowid : List Node → Option Int
  | [] => some 1
  | n :: rest =>
    let m := rest.foldl (fun m x => max m x.id) n.id
    if m < INT64_MAX then some (m + 1) else none

/-! ## Node store -/

/-- `select id, type, flags from node where dir=? and name=?` (first row). -/
def node_select (dt : Int) (name : String) (len : Int) (dbn : db_node) (db : Db) :
    Int × db_node × Db :=
  match sqlite3_step db with
  | (false, db1) => (-1, dbn, db1)
  | (true, db1) =>
    match db1.node.find? (fun n => decide (n.dir = dt ∧ n.name = bind_text name len)) with
    | none => (0, dbn, db1)
    | some n =>
      (0, { dbn with tupid := n.id, type := wrap32 n.type, flags := wrap32 n.flags }, db1)

/-- `insert into node(dir, type, flags, name) values(?, ?, ?, ?)`. -/
def node_insert (dt : Int) (name : String) (len : Int) (type flags : Int) (db : Db) :
    Int × Db :=
  match sqlite3_step db with
  | (false, db1) => (-1, db1)
  | (true, db1) =>
    match new_rowid db1.node with
    | none => (-1, db1)
    | some r =>
      (0, { db1 with
              node := db1.node ++ [⟨r, dt, type, flags, bind_text name len⟩],
              last_insert_rowid := r })

/-- `update node set flags=? where id=?`. -/
def tup_db_set_flags_by_id (tupid flags : Int) (db : Db) : Int × Db :=
  match sqlite3_step db with
  | (false, db1) => (-1, db1)
  | (true, db1) =>
    (0, { db1 with
            node := db1.node.map
              (fun n => if n.id = tupid then { n with flags := flags } else n) })

/-- The upsert `tup_db_create_node_part`.  `node_created` is the cell the
pointer argument refers to (`none` for a NULL pointer); its final content is
returned next to the id. -/
def tup_db_create_node_part (K : Consts) (dt : Int) (name : String) (len : Int)
    (type flags : Int) (node_created : Option Int) (db : Db) : Int × Option Int × Db :=
  match node_select dt name len ⟨-1, -1, none, 0, 0⟩ db with
  | (rc, dbn, db1) =>
    if rc < 0 then (-1, node_created, db1)
    else if dbn.tupid ≠ -1 then
      if int_and dbn.flags K.TUP_FLAGS_DELETE ≠ 0 then
        match tup_db_set_flags_by_id dbn.tupid
            (int_and dbn.flags (int_not K.TUP_FLAGS_DELETE)) db1 with
        | (rc2, db2) =>
          if rc2 < 0 then (-1, node_created, db2) else (dbn.tupid, node_created, db2)
      else (dbn.tupid, node_created, db1)
    else
      match node_insert dt name len type flags db1 with
      | (rc3, db3) =>
        if rc3 < 0 then (-1, node_created, db3)
        else (db3.last_insert_rowid, node_created.map (fun _ => 1), db3)

/-- The function `tup_db_create_node`: the whole name, no creation report. -/
def tup_db_create_node (K : Consts) (dt : Int) (name : String) (type flags : Int)
    (db : Db) : Int × Db :=
  match tup_db_create_node_part K dt name (-1) type flags none db with
  | (id, _, db1) => (id, db1)

/-- The function `tup_db_create_dup_node`: insert without a lookup. -/
def tup_db_create_dup_node (dt : Int) (name : String) (type flags : Int) (db : Db) :
    Int × Db :=
  match node_insert dt name (-1) type flags db with
  | (rc, db1) => if rc < 0 then (-1, db1) else (db1.last_insert_rowid, db1)

/-- The function `tup_db_select_node`. -/
def tup_db_select_node (dt : Int) (name : String) (db : Db) : Int × Db :=
  match node_select dt name (-1) ⟨-1, -1, none, 0, 0⟩ db with
  | (rc, dbn, db1) => if rc < 0 then (-1, db1) else (dbn.tupid, db1)

/-- The function `tup_db_select_node_part`. -/
def tup_db_select_node_part (dt : Int) (name : String) (len : Int) (db : Db) : Int × Db :=
  match node_select dt name len ⟨-1, -1, none, 0, 0⟩ db with
  | (rc, dbn, db1) => if rc < 0 then (-1, db1) else (dbn.tupid, db1)

/-- The row loop of the streaming queries: each row goes to the callback, a
negative answer ends the query with -1. -/
def visit_rows {σ : Type} (callback : σ → db_node → Int × σ) : List db_node → σ → Int × σ
  | [], arg => (0, arg)
  | dbn :: rest, arg =>
    match callback arg dbn with
    | (rc, arg1) => if rc < 0 then (-1, arg1) else visit_rows callback rest arg1

/-- `select id, dir, name, type from node where flags=?`, streamed. -/
def tup_db_select_node_by_flags {σ : Type} (callback : σ → db_node → Int × σ) (arg : σ)
    (flags : Int) (db : Db) : Int × σ × Db :=
  match sqlite3_step db with
  | (false, db1) => (-1, arg, db1)
  | (true, db1) =>
    match visit_rows callback
        ((db1.node.filter (fun n => decide (n.flags = flags))).map
          (fun n => ⟨n.id, n.dir, some n.name, wrap32 n.type, flags⟩)) arg with
    | (rc, arg1) => (rc, arg1, db1)

/-- `select id, name, type, flags from node where dir=? and type=? and flags!=?
and name glob ?`, with `TUP_NODE_FILE` and `TUP_FLAGS_DELETE` bound, streamed.
`sqlite_glob pattern text` is the `GLOB` operator of the engine. -/
def tup_db_select_node_dir_glob {σ : Type} (K : Consts) (sqlite_glob : String → String → Bool)
    (callback : σ → db_node → Int × σ) (arg : σ) (dt : Int) (glob : String) (db : Db) :
    Int × σ × Db :=
  match sqlite3_step db with
  | (false, db1) => (-1, arg, db1)
  | (true, db1) =>
    match visit_rows callback
        ((db1.node.filter (fun n =>
            decide (n.dir = dt) && decide (n.type = K.TUP_NODE_FILE) &&
            decide (n.flags ≠ K.TUP_FLAGS_DELETE) && sqlite_glob glob n.name)).map
          (fun n => ⟨n.id, dt, some n.name, wrap32 n.type, wrap32 n.flags⟩)) arg with
    | (rc, arg1) => (rc, arg1, db1)

/-- The function `tup_db_set_flags_by_name`. -/
def tup_db_set_flags_by_name (dt : Int) (name : String) (flags : Int) (db : Db) : Int × Db :=
  match node_select dt name (-1) ⟨-1, -1, none, 0, 0⟩ db with
  | (rc, dbn, db1) =>
    if rc < 0 then (-1, db1)
    else if dbn.tupid = -1 then (-1, db1)
    else
      match tup_db_set_flags_by_id dbn.tupid flags db1 with
      | (rc2, db2) => if rc2 < 0 then (-1, db2) else (0, db2)

/-- `delete from node where id=?`. -/
def tup_db_delete_node (tupid : Int) (db : Db) : Int × Db :=
  match sqlite3_step db with
  | (false, db1) => (-1, db1)
  | (true, db1) => (0, { db1 with node := db1.node.filter (fun n => decide (n.id ≠ tupid)) })

/-- `select dir from node where id=?`. -/
def tup_db_parent (tupid : Int) (db : Db) : Int × Db :=
  match sqlite3_step db with
  | (false, db1) => (-1, db1)
  | (true, db1) =>
    match db1.node.find? (fun n => decide (n.id = tupid)) with
    | none => (-1, db1)
    | some n => (n.dir, db1)

/-! ## Directory cascade -/

/-- `select id from node where dir=? and type=?` with `TUP_NODE_DIR` bound;
`list_add` puts every id at the head of `list`. -/
def get_recurse_dirs (K : Consts) (dt : Int) (list : List Int) (db : Db) :
    Int × List Int × Db :=
  match sqlite3_step db with
  | (false, db1) => (-1, list, db1)
  | (true, db1) =>
    (0, (db1.node.filter (fun n => decide (n.dir = dt ∧ n.type = K.TUP_NODE_DIR))).foldl
          (fun l n => n.id :: l) list, db1)

/-- The recursion `delete_dir`: `update node set flags=? where dir=?` with
`TUP_FLAGS_DELETE` and `dt` bound (`dt` through `sqlite3_bind_int`, so as an
`int`), then the same for every child directory, taken from the head of the
list; the result of a recursive call is not looked at.  The first argument
bounds the depth of the recursion; `none` means the bound was reached. -/
def delete_dir (K : Consts) : Nat → Int → Db → Option (Int × Db)
  | 0, _, _ => none
  | fuel + 1, dt, db =>
    match sqlite3_step db with
    | (false, db1) => some (-1, db1)
    | (true, db1) =>
      match get_recurse_dirs K dt []
          { db1 with
              node := db1.node.map (fun n =>
                if n.dir = wrap32 dt then { n with flags := K.TUP_FLAGS_DELETE } else n) } with
      | (rc, subdir_list, db2) =>
        if rc < 0 then some (-1, db2)
        else
          (subdir_list.foldlM
              (fun d id => (delete_dir K fuel id d).map (fun r => r.2)) db2).map
            (fun d => (0, d))

/-- The function `tup_db_delete_dir`. -/
def tup_db_delete_dir (K : Consts) (fuel : Nat) (dt : Int) (db : Db) : Option (Int × Db) :=
  match tup_db_set_flags_by_id dt K.TUP_FLAGS_DELETE db with
  | (rc, db1) => if rc < 0 then some (-1, db1) else delete_dir K fuel dt db1

/-! ## Link store -/

/-- `select to_id from link where from_id=? and to_id=?`: 0 when a row exists. -/
def tup_db_link_exists (a b : Int) (db : Db) : Int × Db :=
  match sqlite3_step db with
  | (false, db1) => (-1, db1)
  | (true, db1) =>
    if db1.link.any (fun l => decide (l.from_id = a ∧ l.to_id = b)) then (0, db1)
    else (-1, db1)

/-- `insert into link(from_id, to_id) values(?, ?)`, after the self-loop test. -/
def link_insert (a b : Int) (db : Db) : Int × Db :=
  if a = b then (-1, db)
  else
    match sqlite3_step db with
    | (false, db1) => (-1, db1)
    | (true, db1) => (0, { db1 with link := db1.link ++ [⟨a, b⟩] })

/-- The function `tup_db_create_link`. -/
def tup_db_create_link (a b : Int) (db : Db) : Int × Db :=
  match tup_db_link_exists a b db with
  | (rc, db1) =>
    if rc = 0 then (0, db1)
    else
      match link_insert a b db1 with
      | (rc2, db2) => if rc2 < 0 then (-1, db2) else (0, db2)

/-- `delete from link where from_id=? or to_id=?`. -/
def tup_db_delete_links (tupid : Int) (db : Db) : Int × Db :=
  match sqlite3_step db with
  | (false, db1) => (-1, db1)
  | (true, db1) =>
    (0, { db1 with
            link := db1.link.filter (fun l => !decide (l.from_id = tupid ∨ l.to_id = tupid)) })

/-- `update node set flags=flags|? where dir=? and type=?` with `TUP_NODE_CMD`. -/
def tup_db_or_dircmd_flags (K : Consts) (parent flags : Int) (db : Db) : Int × Db :=
  match sqlite3_step db with
  | (false, db1) => (-1, db1)
  | (true, db1) =>
    (0, { db1 with
            node := db1.node.map (fun n =>
              if n.dir = parent ∧ n.type = K.TUP_NODE_CMD
              then { n with flags := sql_or n.flags flags } else n) })

/-- `update node set flags=? where id in (select to_id from link where from_id
in (select id from node where dir=? and type=?))` with `TUP_NODE_CMD`. -/
def tup_db_set_cmd_output_flags (K : Consts) (parent flags : Int) (db : Db) : Int × Db :=
  match sqlite3_step db with
  | (false, db1) => (-1, db1)
  | (true, db1) =>
    (0, { db1 with
            node := db1.node.map (fun n =>
              if db1.link.any (fun l => decide (l.to_id = n.id) &&
                  db1.node.any (fun c => decide (c.id = l.from_id ∧ c.dir = parent ∧
                    c.type = K.TUP_NODE_CMD)))
              then { n with flags := flags } else n) })

/-- `update node set flags=? where id in (select to_id from link where
from_id=?) and type=?` with `TUP_NODE_DIR`. -/
def tup_db_set_dependent_dir_flags (K : Consts) (dt flags : Int) (db : Db) : Int × Db :=
  match sqlite3_step db with
  | (false, db1) => (-1, db1)
  | (true, db1) =>
    (0, { db1 with
            node := db1.node.map (fun n =>
              if db1.link.any (fun l => decide (l.from_id = dt ∧ l.to_id = n.id)) ∧
                  n.type = K.TUP_NODE_DIR
              then { n with flags := flags } else n) })

/-! ## Config store -/

/-- `insert or replace into config values(?, ?)`: the row with the same
`lval` (the column is unique) is replaced. -/
def config_replace (lval rval : String) (db : Db) : Int × Db :=
  match sqlite3_step db with
  | (false, db1) => (-1, db1)
  | (true, db1) =>
    (0, { db1 with
            config := db1.config.filter (fun c => decide (c.lval ≠ lval)) ++ [⟨lval, rval⟩] })

/-- The function `tup_db_config_set_int`; the column has text affinity. -/
def tup_db_config_set_int (lval : String) (x : Int) (db : Db) : Int × Db :=
  config_replace lval (toString x) db

/-- The function `tup_db_config_set_string`. -/
def tup_db_config_set_string (lval rval : String) (db : Db) : Int × Db :=
  config_replace lval rval db

/-- The function `tup_db_config_get_string`: `select rval from config where
lval=?`; `res` is the string the out pointer receives (`none` for NULL). -/
def tup_db_config_get_string (lval dflt : String) (db : Db) : Int × Option String × Db :=
  match sqlite3_step db with
  | (false, db1) => (-1, none, db1)
  | (true, db1) =>
    let res : Option String :=
      match db1.config.find? (fun c => decide (c.lval = lval)) with
      | none => some dflt
      | some c => some c.rval
    (if res.isSome then 0 else -1, res, db1)

/-! ## Transactions -/

/-- The statement `begin`: an error while a transaction is open. -/
def tup_db_begin (db : Db) : Int × Db :=
  match sqlite3_step db with
  | (false, db1) => (-1, db1)
  | (true, db1) =>
    match db1.txn with
    | some _ => (-1, db1)
    | none => (0, { db1 with txn := some db1.tables })

/-- The statement `commit`: an error when no transaction is open. -/
def tup_db_commit (db : Db) : Int × Db :=
  match sqlite3_step db with
  | (false, db1) => (-1, db1)
  | (true, db1) =>
    match db1.txn with
    | none => (-1, db1)
    | some _ => (0, { db1 with txn := none })

/-- The statement `rollback`: the tables return to the snapshot taken by
`begin`; an error when no transaction is open. -/
def tup_db_rollback (db : Db) : Int × Db :=
  match sqlite3_step db with
  | (false, db1) => (-1, db1)
  | (true, db1) =>
    match db1.txn with
    | none => (-1, db1)
    | some t => (0, { db1 with node := t.node, link := t.link, config := t.config, txn := none })

/-- The mutating calls of the node, link and config stores. -/
inductive Mutation where
  | create_node (dt : Int) (name : String) (type flags : Int)
  | create_node_part (dt : Int) (name : String) (len type flags : Int)
      (node_created : Option Int)
  | create_dup_node (dt : Int) (name : String) (type flags : Int)
  | set_flags_by_name (dt : Int) (name : String) (flags : Int)
  | set_flags_by_id (tupid flags : Int)
  | delete_node (tupid : Int)
  | delete_dir (dt : Int)
  | create_link (a b : Int)
  | delete_links (tupid : Int)
  | or_dircmd_flags (parent flags : Int)
  | set_cmd_output_flags (parent flags : Int)
  | set_dependent_dir_flags (dt flags : Int)
  | config_set_int (lval : String) (x : Int)
  | config_set_string (lval rval : String)
deriving DecidableEq, Repr

/-- The connection after one mutating call (`none`: the cascade did not
return within `fuel`). -/
def Mutation.run (K : Consts) (fuel : Nat) : Mutation → Db → Option Db
  | .create_node dt name type flags, db => some (tup_db_create_node K dt name type flags db).2
  | .create_node_part dt name len type flags c, db =>
    some (tup_db_create_node_part K dt name len type flags c db).2.2
  | .create_dup_node dt name type flags, db => some (tup_db_create_dup_node dt name type flags db).2
  | .set_flags_by_name dt name flags, db => some (tup_db_set_flags_by_name dt name flags db).2
  | .set_flags_by_id tupid flags, db => some (tup_db_set_flags_by_id tupid flags db).2
  | .delete_node tupid, db => some (tup_db_delete_node tupid db).2
  | .delete_dir dt, db => (tup_db_delete_dir K fuel dt db).map (fun r => r.2)
  | .create_link a b, db => some (tup_db_create_link a b db).2
  | .delete_links tupid, db => some (tup_db_delete_links tupid db).2
  | .or_dircmd_flags parent flags, db => some (tup_db_or_dircmd_flags K parent flags db).2
  | .set_cmd_output_flags parent flags, db =>
    some (tup_db_set_cmd_output_flags K parent flags db).2
  | .set_dependent_dir_flags dt flags, db =>
    some (tup_db_set_dependent_dir_flags K dt flags db).2
  | .config_set_int lval x, db => some (tup_db_config_set_int lval x db).2
  | .config_set_string lval rval, db => some (tup_db_config_set_string lval rval db).2

/-- A sequence of mutating calls, one after the other. -/
def run_mutations (K : Consts) (fuel : Nat) : List Mutation → Db → Option Db
  | [], db => some db
  | m :: ms, db =>
    match m.run K fuel db with
    | none => none
    | some db1 => run_mutations K fuel ms db1

/-- The results and the final connection of `n` successive calls of
`tup_db_create_link a b`. -/
def create_link_times (a b : Int) : Nat → Db → List Int × Db
  | 0, db => ([], db)
  | n + 1, db =>
    match tup_db_create_link a b db with
    | (rc, db1) =>
      match create_link_times a b n db1 with
      | (rcs, db2) => (rc :: rcs, db2)

/-- A visitor for the streaming queries that records every row it is passed,
in order, and never asks to stop. -/
def record_visit (seen : List db_node) (dbn : db_node) : Int × List db_node :=
  (0, seen ++ [dbn])

/-- The directories below `d`: `Reached K ns d x` when `x` is `d` or can be
reached from `d` by going down through directory-type nodes of `ns`, each
lying in the directory reached before it. -/
inductive Reached (K : Consts) (ns : List Node) : Int → Int → Prop where
  | root (d : Int) : Reached K ns d d
  | step (d x : Int) (n : Node) : n ∈ ns → n.dir = d → n.type = K.TUP_NODE_DIR →
      Reached K ns n.id x → Reached K ns d x

/-- The node table `ns` with the flags overwritten by `TUP_FLAGS_DELETE` in
every row whose id is in `ids` or whose directory is in `dirs`. -/
def mark_deleted (K : Consts) (ids dirs : List Int) (ns : List Node) : List Node :=
  ns.map (fun n =>
    if n.id ∈ ids ∨ n.dir ∈ dirs then { n with flags := K.TUP_FLAGS_DELETE } else n)

/-- The list `get_recurse_dirs` builds from an empty one: the ids of the
directory-type rows of `ns` in directory `dt`, last row first. -/
def subdirs (K : Consts) (dt : Int) (ns : List Node) : List Int :=
  (ns.filter (fun n => decide (n.dir = dt ∧ n.type = K.TUP_NODE_DIR))).foldl
    (fun l n => n.id :: l) []

/-- What every call keeps of the connection `a` in the connection `b` it
returns: the transaction state, and an error-free backend stays error-free. -/
def conn_kept (a b : Db) : Prop := b.txn = a.txn ∧ (a.faults = [] → b.faults = [])

/-! ## Schema creation -/

/-- The kinds of statement in the array `sql` of `tup_db_create`. -/
inductive Sql where
  | create_table (name : String)
  | create_index (name table : String)
  | insert_config (lval rval : String)
deriving DecidableEq, Repr

/-- The array `sql` of `tup_db_create`, in its order; the integer values of
the seeded rows are stored as text, the column having text affinity. -/
def sql : List Sql :=
  [.create_table "node", .create_table "link", .create_table "config",
   .create_index "node_dir_index" "node", .create_index "node_flags_index" "node",
   .create_index "link_index" "link", .create_index "link_index2" "link",
   .insert_config "show_progress" "1", .insert_config "keep_going" "0",
   .insert_config "db_sync" "1"]

/-- The database file behind the connection: the names of the tables and
indexes that exist, the `synchronous` setting, and the connection with the
rows (a table that does not exist has none). -/
structure DbFile where
  schema : List String
  synchronous : Bool
  db : Db
deriving DecidableEq, Repr

/-- One statement run by `sqlite3_exec` outside a transaction: it is committed
when it succeeds and has no effect when it fails.  `create` fails on a name in
use, an index needs its table, an insert into `config` needs the table and a
new `lval` (the column is unique). -/
def sqlite3_exec (q : Sql) (f : DbFile) : Bool × DbFile :=
  match sqlite3_step f.db with
  | (false, db1) => (false, { f with db := db1 })
  | (true, db1) =>
    match q with
    | .create_table name =>
      if name ∈ f.schema then (false, { f with db := db1 })
      else (true, { f with schema := f.schema ++ [name], db := db1 })
    | .create_index name table =>
      if name ∈ f.schema ∨ table ∉ f.schema then (false, { f with db := db1 })
      else (true, { f with schema := f.schema ++ [name], db := db1 })
    | .insert_config lval rval =>
      if "config" ∉ f.schema ∨ db1.config.any (fun c => decide (c.lval = lval))
      then (false, { f with db := db1 })
      else (true, { f with db := { db1 with config := db1.config ++ [⟨lval, rval⟩] } })

/-- The function `no_sync`: `PRAGMA synchronous=OFF` through `sqlite3_exec`. -/
def no_sync (f : DbFile) : Int × DbFile :=
  match sqlite3_step f.db with
  | (false, db1) => (-1, { f with db := db1 })
  | (true, db1) => (0, { f with synchronous := false, db := db1 })

/-- The loop of `tup_db_create` over the statements: it stops at the first
statement that fails. -/
def exec_loop : List Sql → DbFile → Bool × DbFile
  | [], f => (true, f)
  | q :: rest, f =>
    match sqlite3_exec q f with
    | (false, f1) => (false, f1)
    | (true, f1) => exec_loop rest f1

/-- The function `tup_db_create` on the file that `sqlite3_open` opened. -/
def tup_db_create (db_sync : Int) (f : DbFile) : Int × DbFile :=
  match (if db_sync = 0 then no_sync f else (0, f)) with
  | (rc0, f0) =>
    if rc0 < 0 then (-1, f0)
    else
      match exec_loop sql f0 with
      | (false, f1) => (-1, f1)
      | (true, f1) =>
        if db_sync = 0 then
          match tup_db_config_set_int "db_sync" 0 f1.db with
          | (rc, db2) =>
            if rc < 0 then (-1, { f1 with db := db2 }) else (0, { f1 with db := db2 })
        else (0, f1)

/-- The names of the tables and indexes a list of statements creates. -/
def created_names : List Sql → List String
  | [] => []
  | .create_table name :: rest => name :: created_names rest
  | .create_index name _ :: rest => name :: created_names rest
  | .insert_config _ _ :: rest => created_names rest

/-- The config rows a list of statements inserts. -/
def seeded_rows : List Sql → List Config
  | [] => []
  | .insert_config lval rval :: rest => ⟨lval, rval⟩ :: seeded_rows rest
  | _ :: rest => seeded_rows rest

/-! ## The shape of the directory tree -/

/-- The columns of the node table that no cascade changes. -/
def skeleton (ns : List Node) : List (Int × Int × Int) :=
  ns.map (fun n => (n.id, n.dir, n.type))

/-- The dir relation over directory-type nodes is acyclic: no directory node
reaches, going down, the directory it lies in. -/
def Acyclic (K : Consts) (ns : List Node) : Prop :=
  ∀ n ∈ ns, n.type = K.TUP_NODE_DIR → ¬ Reached K ns n.id n.dir

/-- The tree below `d` has at most `h` levels of directories, `d` being the
first: the directories in `d` have at most `h - 1`. -/
inductive NestedWithin (K : Consts) (ns : List Node) : Int → Nat → Prop where
  | intro (d : Int) (h : Nat) :
      (∀ n ∈ ns, n.dir = d → n.type = K.TUP_NODE_DIR → NestedWithin K ns n.id h) →
      NestedWithin K ns d (h + 1)

/-- The recursion `delete_dir` with a record of its calls: the third
component lists the directories `delete_dir` was called for, in the order of
the calls.  Everything else is `delete_dir`. -/
def delete_dir_visits (K : Consts) : Nat → Int → Db → Option (Int × Db × List Int)
  | 0, _, _ => none
  | fuel + 1, dt, db =>
    match sqlite3_step db with
    | (false, db1) => some (-1, db1, [dt])
    | (true, db1) =>
      match get_recurse_dirs K dt []
          { db1 with
              node := db1.node.map (fun n =>
                if n.dir = wrap32 dt then { n with flags := K.TUP_FLAGS_DELETE } else n) } with
      | (rc, subdir_list, db2) =>
        if rc < 0 then some (-1, db2, [dt])
        else
          (subdir_list.foldlM
              (fun (acc : Db × List Int) id =>
                (delete_dir_visits K fuel id acc.1).map (fun r => (r.2.1, acc.2 ++ r.2.2)))
              (db2, [dt])).map
            (fun acc => (0, acc.1, acc.2))

/-! ## Basic facts -/

theorem sqlite3_step_nil (db : Db) (h : db.faults = []) : sqlite3_step db = (true, db) := by
  unfold sqlite3_step
  rw [h]

theorem wrap32_of_isInt (x : Int) (h : isInt x) : wrap32 x = x := by
  unfold isInt at h
  unfold wrap32
  omega

theorem toU32_lt (x : Int) : toU32 x < 4294967296 := by
  unfold toU32
  omega

theorem toU32_ofU32 (u : Nat) (h : u < 4294967296) : toU32 (ofU32 u) = u := by
  unfold toU32 ofU32
  split <;> omega

theorem toU32_int_not (d : Int) : toU32 (int_not d) = 2 ^ 32 - (toU32 d + 1) := by
  unfold toU32 int_not
  norm_num
  omega

theorem toU32_int_and (a b : Int) : toU32 (int_and a b) = toU32 a &&& toU32 b := by
  unfold int_and
  apply toU32_ofU32
  have := toU32_lt b
  exact Nat.and_lt_two_pow (toU32 a) (n := 32) (by simpa using this)

/-- Bit by bit, `x & ~d` is `x` with the bits of `d` cleared. -/
theorem int_and_not_testBit (x d : Int) (k : Nat) (hk : k < 32) :
    (toU32 (int_and x (int_not d))).testBit k
      = ((toU32 x).testBit k && !(toU32 d).testBit k) := by
  rw [toU32_int_and, Nat.testBit_and, toU32_int_not,
    Nat.testBit_two_pow_sub_succ (by simpa using toU32_lt d)]
  simp [hk]

theorem foldl_max_le (ns : List Node) (m b : Int) (hm : m ≤ b) (h : ∀ n ∈ ns, n.id ≤ b) :
    ns.foldl (fun m x => max m x.id) m ≤ b := by
  induction ns generalizing m with
  | nil => simpa using hm
  | cons n rest ih =>
    simp only [List.foldl_cons]
    apply ih
    · exact max_le hm (h n (List.mem_cons_self _ _))
    · intro k hk
      exact h k (List.mem_cons_of_mem _ hk)

theorem le_foldl_max (ns : List Node) (m : Int) :
    m ≤ ns.foldl (fun m x => max m x.id) m ∧
      ∀ n ∈ ns, n.id ≤ ns.foldl (fun m x => max m x.id) m := by
  induction ns generalizing m with
  | nil => simp
  | cons n rest ih =>
    simp only [List.foldl_cons]
    obtain ⟨h1, h2⟩ := ih (max m n.id)
    refine ⟨le_trans (le_max_left _ _) h1, ?_⟩
    intro k hk
    rcases List.mem_cons.mp hk with rfl | hk
    · exact le_trans (le_max_right _ _) h1
    · exact h2 k hk

/-- The rowid of a new row is larger than every rowid in use. -/
theorem new_rowid_gt (ns : List Node) (r : Int) (h : new_rowid ns = some r) :
    ∀ n ∈ ns, n.id < r := by
  cases ns with
  | nil => simp
  | cons a rest =>
    simp only [new_rowid] at h
    split at h
    · have hr : r = rest.foldl (fun m x => max m x.id) a.id + 1 := by
        simpa using h.symm
      obtain ⟨h1, h2⟩ := le_foldl_max rest a.id
      intro k hk
      rcases List.mem_cons.mp hk with rfl | hk
      · omega
      · have := h2 k hk
        omega
    · simp at h

/-- A rowid is available, and positive, when the rowids in use are positive
and below the largest one. -/
theorem new_rowid_some (ns : List Node) (h : ∀ n ∈ ns, 0 < n.id ∧ n.id < INT64_MAX) :
    ∃ r, new_rowid ns = some r ∧ 0 < r := by
  cases ns with
  | nil => exact ⟨1, rfl, by decide⟩
  | cons a rest =>
    have hle : rest.foldl (fun m x => max m x.id) a.id ≤ INT64_MAX - 1 := by
      apply foldl_max_le
      · have := (h a (List.mem_cons_self _ _)).2
        omega
      · intro k hk
        have := (h k (List.mem_cons_of_mem _ hk)).2
        omega
    obtain ⟨h1, _⟩ := le_foldl_max rest a.id
    have ha := (h a (List.mem_cons_self _ _)).1
    refine ⟨rest.foldl (fun m x => max m x.id) a.id + 1, ?_, by omega⟩
    simp only [new_rowid]
    rw [if_pos (by omega)]

/-! ## The upsert -/

theorem node_select_absent (db : Db) (dt : Int) (name : String) (len : Int) (dbn : db_node)
    (hf : db.faults = [])
    (habs : ∀ n ∈ db.node, ¬ (n.dir = dt ∧ n.name = bind_text name len)) :
    node_select dt name len dbn db = (0, dbn, db) := by
  have hfind : db.node.find? (fun n => decide (n.dir = dt ∧ n.name = bind_text name len))
      = none := by
    rw [List.find?_eq_none]
    intro n hn
    simpa using habs n hn
  simp only [node_select, sqlite3_step_nil db hf, hfind]

theorem node_select_present (db : Db) (dt : Int) (name : String) (len : Int) (dbn : db_node)
    (n : Node) (hf : db.faults = [])
    (hfind : db.node.find? (fun n => decide (n.dir = dt ∧ n.name = bind_text name len))
      = some n) :
    node_select dt name len dbn db
      = (0, { dbn with tupid := n.id, type := wrap32 n.type, flags := wrap32 n.flags }, db) := by
  simp only [node_select, sqlite3_step_nil db hf, hfind]

theorem node_insert_ok (db : Db) (dt : Int) (name : String) (len type flags r : Int)
    (hf : db.faults = []) (hr : new_rowid db.node = some r) :
    node_insert dt name len type flags db
      = (0, { db with
                node := db.node ++ [⟨r, dt, type, flags, bind_text name len⟩],
                last_insert_rowid := r }) := by
  simp only [node_insert, sqlite3_step_nil db hf, hr]

theorem set_flags_by_id_ok (db : Db) (tupid flags : Int) (hf : db.faults = []) :
    tup_db_set_flags_by_id tupid flags db
      = (0, { db with
                node := db.node.map
                  (fun n => if n.id = tupid then { n with flags := flags } else n) }) := by
  simp only [tup_db_set_flags_by_id, sqlite3_step_nil db hf]

/-- The upsert on an absent `(dir, name)`: a row is appended, its rowid is
returned and the creation is reported. -/
theorem create_node_part_absent (K : Consts) (db : Db) (dt : Int) (name : String)
    (len type flags r : Int) (c : Option Int)
    (hf : db.faults = [])
    (habs : ∀ n ∈ db.node, ¬ (n.dir = dt ∧ n.name = bind_text name len))
    (hr : new_rowid db.node = some r) :
    tup_db_create_node_part K dt name len type flags c db
      = (r, c.map (fun _ => 1),
          { db with
              node := db.node ++ [⟨r, dt, type, flags, bind_text name len⟩],
              last_insert_rowid := r }) := by
  simp [tup_db_create_node_part, node_select_absent db dt name len _ hf habs,
    node_insert_ok db dt name len type flags r hf hr]

/-- The upsert on a present `(dir, name)`: the id of the first such row is
returned, nothing is reported, and the only possible change is the flags of
the rows with that id. -/
theorem create_node_part_present (K : Consts) (db : Db) (dt : Int) (name : String)
    (len type flags : Int) (c : Option Int) (n : Node)
    (hf : db.faults = [])
    (hfind : db.node.find? (fun n => decide (n.dir = dt ∧ n.name = bind_text name len))
      = some n)
    (hid : n.id ≠ -1) :
    tup_db_create_node_part K dt name len type flags c db
      = (n.id, c,
          if int_and (wrap32 n.flags) K.TUP_FLAGS_DELETE ≠ 0 then
            { db with
                node := db.node.map (fun m =>
                  if m.id = n.id then
                    { m with flags := int_and (wrap32 n.flags) (int_not K.TUP_FLAGS_DELETE) }
                  else m) }
          else db) := by
  simp only [tup_db_create_node_part, node_select_present db dt name len _ n hf hfind]
  by_cases hd : int_and (wrap32 n.flags) K.TUP_FLAGS_DELETE = 0
  · simp [hd, hid]
  · simp [hd, hid, set_flags_by_id_ok db _ _ hf]

/-- C1 (idempotent upsert).  On an error-free backend, in a store whose node
ids are positive and below the largest rowid and in which no node has
`(dir, name)`, two successive calls of `tup_db_create_node_part` with the same
arguments return the same (positive) id; the first call sets the cell behind
`node_created` to 1, the second leaves it as it finds it. -/
theorem create_node_part_idempotent (K : Consts) (db : Db) (dt : Int) (name : String)
    (len type flags : Int) (c c2 : Option Int)
    (hf : db.faults = [])
    (hids : ∀ n ∈ db.node, 0 < n.id ∧ n.id < INT64_MAX)
    (habs : ∀ n ∈ db.node, ¬ (n.dir = dt ∧ n.name = bind_text name len)) :
    (tup_db_create_node_part K dt name len type flags c2
        (tup_db_create_node_part K dt name len type flags c db).2.2).1
      = (tup_db_create_node_part K dt name len type flags c db).1
    ∧ 0 < (tup_db_create_node_part K dt name len type flags c db).1
    ∧ (tup_db_create_node_part K dt name len type flags c db).2.1 = c.map (fun _ => 1)
    ∧ (tup_db_create_node_part K dt name len type flags c2
        (tup_db_create_node_part K dt name len type flags c db).2.2).2.1 = c2 := by
  obtain ⟨r, hr, hpos⟩ := new_rowid_some db.node hids
  rw [create_node_part_absent K db dt name len type flags r c hf habs hr]
  have hfind : (db.node ++ [(⟨r, dt, type, flags, bind_text name len⟩ : Node)]).find?
      (fun n => decide (n.dir = dt ∧ n.name = bind_text name len))
      = some ⟨r, dt, type, flags, bind_text name len⟩ := by
    have hnone : db.node.find? (fun n => decide (n.dir = dt ∧ n.name = bind_text name len))
        = none := by
      rw [List.find?_eq_none]
      intro n hn
      simpa using habs n hn
    rw [List.find?_append, hnone]
    simp [List.find?]
  have hne : (⟨r, dt, type, flags, bind_text name len⟩ : Node).id ≠ -1 := by
    show r ≠ -1
    omega
  have h2 := create_node_part_present K
    { db with
        node := db.node ++ [⟨r, dt, type, flags, bind_text name len⟩],
        last_insert_rowid := r }
    dt name len type flags c2 ⟨r, dt, type, flags, bind_text name len⟩ hf hfind hne
  rw [h2]
  exact ⟨rfl, hpos, rfl, rfl⟩

/-- C1 at a concrete store: one node `a` in the root, the upsert of `b`. -/
theorem create_node_part_idempotent_witness :
    (tup_db_create_node_part ⟨4, 0, 2, 1⟩ 0 "b" (-1) 0 0 (some 0)
        (tup_db_create_node_part ⟨4, 0, 2, 1⟩ 0 "b" (-1) 0 0 (some 0)
          ⟨[⟨1, 0, 0, 0, "a"⟩], [], [], 0, none, []⟩).2.2).1
      = (tup_db_create_node_part ⟨4, 0, 2, 1⟩ 0 "b" (-1) 0 0 (some 0)
          ⟨[⟨1, 0, 0, 0, "a"⟩], [], [], 0, none, []⟩).1
    ∧ 0 < (tup_db_create_node_part ⟨4, 0, 2, 1⟩ 0 "b" (-1) 0 0 (some 0)
          ⟨[⟨1, 0, 0, 0, "a"⟩], [], [], 0, none, []⟩).1
    ∧ (tup_db_create_node_part ⟨4, 0, 2, 1⟩ 0 "b" (-1) 0 0 (some 0)
          ⟨[⟨1, 0, 0, 0, "a"⟩], [], [], 0, none, []⟩).2.1 = (some 0).map (fun _ => 1)
    ∧ (tup_db_create_node_part ⟨4, 0, 2, 1⟩ 0 "b" (-1) 0 0 (some 0)
        (tup_db_create_node_part ⟨4, 0, 2, 1⟩ 0 "b" (-1) 0 0 (some 0)
          ⟨[⟨1, 0, 0, 0, "a"⟩], [], [], 0, none, []⟩).2.2).2.1 = some 0 :=
  create_node_part_idempotent ⟨4, 0, 2, 1⟩ ⟨[⟨1, 0, 0, 0, "a"⟩], [], [], 0, none, []⟩
    0 "b" (-1) 0 0 (some 0) (some 0) rfl (by decide) (by decide)

/-- The first row with a given `(dir, name)` is the only one, when there is
only one. -/
theorem find_only (ns : List Node) (n : Node) (dt : Int) (nm : String)
    (hn : n ∈ ns) (hdt : n.dir = dt) (hnm : n.name = nm)
    (honly : ∀ m ∈ ns, m.dir = n.dir → m.name = n.name → m = n) :
    ns.find? (fun m => decide (m.dir = dt ∧ m.name = nm)) = some n := by
  induction ns with
  | nil => cases hn
  | cons a rest ih =>
    by_cases ha : a.dir = dt ∧ a.name = nm
    · have : a = n := honly a (List.mem_cons_self _ _) (by rw [ha.1, hdt]) (by rw [ha.2, hnm])
      subst this
      simp [List.find?, ha]
    · have hne : n ≠ a := by
        intro h
        subst h
        exact ha ⟨hdt, hnm⟩
      have hn2 : n ∈ rest := by
        rcases List.mem_cons.mp hn with h | h
        · exact absurd h hne
        · exact h
      have := ih hn2 (fun m hm => honly m (List.mem_cons_of_mem _ hm))
      simp only [List.find?, ha, decide_False]
      exact this

/-- An update by id touches one row when the id is a key. -/
theorem map_update_key (ns : List Node) (n : Node) (f : Int)
    (hkey : ∀ m ∈ ns, m.id = n.id → m = n) :
    ns.map (fun m => if m.id = n.id then { m with flags := f } else m)
      = ns.map (fun m => if m = n then { n with flags := f } else m) := by
  apply List.map_congr_left
  intro m hm
  by_cases h : m.id = n.id
  · have := hkey m hm h
    subst this
    simp
  · have : m ≠ n := fun e => h (by rw [e])
    simp [h, this]

/-- C2 (resurrection).  On an error-free backend, for a node `n` of the store
that is the only row with its `(dir, name)` and the only row with its id (the
primary key, which is not the not-found value -1 of the code), whose flags are
a C `int` with a `TUP_FLAGS_DELETE` bit set,
`tup_db_create_node_part` with that `(dir, name)` and any type and flags
returns `n.id`, leaves the cell behind `node_created` alone, and changes the
node table only in the flags of `n`, which become `n.flags & ~TUP_FLAGS_DELETE`:
bit by bit the old flags with the bits of `TUP_FLAGS_DELETE` cleared.  No row
is inserted; the link and config tables are unchanged. -/
theorem create_node_part_resurrects (K : Consts) (db : Db) (n : Node) (name : String)
    (len type flags : Int) (c : Option Int)
    (hf : db.faults = [])
    (hn : n ∈ db.node)
    (honly : ∀ m ∈ db.node, m.dir = n.dir → m.name = n.name → m = n)
    (hkey : ∀ m ∈ db.node, m.id = n.id → m = n)
    (hid : n.id ≠ -1)
    (hname : bind_text name len = n.name)
    (hflags : isInt n.flags)
    (hdel : int_and n.flags K.TUP_FLAGS_DELETE ≠ 0) :
    (tup_db_create_node_part K n.dir name len type flags c db).1 = n.id
    ∧ (tup_db_create_node_part K n.dir name len type flags c db).2.1 = c
    ∧ (tup_db_create_node_part K n.dir name len type flags c db).2.2.node
        = db.node.map (fun m =>
            if m = n then { n with flags := int_and n.flags (int_not K.TUP_FLAGS_DELETE) }
            else m)
    ∧ (tup_db_create_node_part K n.dir name len type flags c db).2.2.node.length
        = db.node.length
    ∧ (tup_db_create_node_part K n.dir name len type flags c db).2.2.link = db.link
    ∧ (tup_db_create_node_part K n.dir name len type flags c db).2.2.config = db.config
    ∧ ∀ k, k < 32 →
        (toU32 (int_and n.flags (int_not K.TUP_FLAGS_DELETE))).testBit k
          = ((toU32 n.flags).testBit k && !(toU32 K.TUP_FLAGS_DELETE).testBit k) := by
  have hfind := find_only db.node n n.dir (bind_text name len) hn rfl hname.symm honly
  rw [create_node_part_present K db n.dir name len type flags c n hf hfind hid,
    wrap32_of_isInt n.flags hflags, if_pos hdel]
  refine ⟨rfl, rfl, ?_, ?_, rfl, rfl, fun k hk => int_and_not_testBit _ _ k hk⟩
  · exact map_update_key db.node n _ hkey
  · simp

/-- C2 at a concrete store: the tombstoned file `a` (flags 5, delete bit 4)
next to a live file `b`. -/
theorem create_node_part_resurrects_witness :
    (tup_db_create_node_part ⟨4, 0, 2, 1⟩ 0 "a" (-1) 0 0 (some 0)
        ⟨[⟨1, 0, 0, 5, "a"⟩, ⟨2, 0, 0, 1, "b"⟩], [], [], 0, none, []⟩).1 = 1
    ∧ (tup_db_create_node_part ⟨4, 0, 2, 1⟩ 0 "a" (-1) 0 0 (some 0)
        ⟨[⟨1, 0, 0, 5, "a"⟩, ⟨2, 0, 0, 1, "b"⟩], [], [], 0, none, []⟩).2.2.node
      = [⟨1, 0, 0, 1, "a"⟩, ⟨2, 0, 0, 1, "b"⟩] := by
  have h := create_node_part_resurrects ⟨4, 0, 2, 1⟩
    ⟨[⟨1, 0, 0, 5, "a"⟩, ⟨2, 0, 0, 1, "b"⟩], [], [], 0, none, []⟩ ⟨1, 0, 0, 5, "a"⟩
    "a" (-1) 0 0 (some 0) rfl (by decide) (by decide) (by decide) (by decide) (by decide)
    (by decide) (by decide)
  exact ⟨h.1, h.2.2.1.trans (by decide)⟩

/-! ## Links -/

/-- Executing a statement touches nothing but the list of upcoming errors. -/
theorem sqlite3_step_frame (db : Db) :
    (sqlite3_step db).2.node = db.node ∧ (sqlite3_step db).2.link = db.link ∧
      (sqlite3_step db).2.config = db.config ∧ (sqlite3_step db).2.txn = db.txn ∧
      (sqlite3_step db).2.last_insert_rowid = db.last_insert_rowid := by
  unfold sqlite3_step
  cases db.faults <;> simp

theorem link_exists_frame (a b : Int) (db : Db) :
    (tup_db_link_exists a b db).2 = (sqlite3_step db).2 := by
  unfold tup_db_link_exists
  rcases hs : sqlite3_step db with ⟨ok, db1⟩
  cases ok
  · rfl
  · simp only
    split <;> rfl

theorem link_exists_absent (a b : Int) (db : Db)
    (h : ∀ l ∈ db.link, ¬ (l.from_id = a ∧ l.to_id = b)) :
    (tup_db_link_exists a b db).1 = -1 := by
  unfold tup_db_link_exists
  rcases hs : sqlite3_step db with ⟨ok, db1⟩
  cases ok
  · rfl
  · have hl : db1.link = db.link := by
      have := (sqlite3_step_frame db).2.1
      rw [hs] at this
      exact this
    have hany : db1.link.any (fun l => decide (l.from_id = a ∧ l.to_id = b)) = false := by
      rw [hl, List.any_eq_false]
      intro l hl2
      simpa using h l hl2
    simp only [hany]
    rfl

theorem link_exists_present (a b : Int) (db : Db) (hf : db.faults = [])
    (h : (⟨a, b⟩ : Link) ∈ db.link) :
    tup_db_link_exists a b db = (0, db) := by
  have hany : db.link.any (fun l => decide (l.from_id = a ∧ l.to_id = b)) = true := by
    rw [List.any_eq_true]
    exact ⟨⟨a, b⟩, h, by simp⟩
  simp only [tup_db_link_exists, sqlite3_step_nil db hf, hany, if_true]

theorem create_link_present (a b : Int) (db : Db) (hf : db.faults = [])
    (h : (⟨a, b⟩ : Link) ∈ db.link) :
    tup_db_create_link a b db = (0, db) := by
  simp [tup_db_create_link, link_exists_present a b db hf h]

theorem create_link_absent (a b : Int) (db : Db) (hf : db.faults = []) (hab : a ≠ b)
    (h : ∀ l ∈ db.link, ¬ (l.from_id = a ∧ l.to_id = b)) :
    tup_db_create_link a b db = (0, { db with link := db.link ++ [⟨a, b⟩] }) := by
  have h1 := link_exists_absent a b db h
  have h2 := link_exists_frame a b db
  rw [sqlite3_step_nil db hf] at h2
  rcases he : tup_db_link_exists a b db with ⟨rc, db1⟩
  rw [he] at h1 h2
  simp only at h1 h2
  subst h1 h2
  simp [tup_db_create_link, he, link_insert, hab, sqlite3_step_nil db1 hf]

theorem create_link_times_present (a b : Int) (n : Nat) (db : Db) (hf : db.faults = [])
    (h : (⟨a, b⟩ : Link) ∈ db.link) :
    create_link_times a b n db = (List.replicate n 0, db) := by
  induction n with
  | zero => rfl
  | succ k ih =>
    simp only [create_link_times, create_link_present a b db hf h, ih, List.replicate_succ]

/-- The link table of a store after `tup_db_create_link`: the old one, or the
old one with the row `(a, b)`, `a ≠ b`, at its end. -/
theorem create_link_link (a b : Int) (db : Db) :
    (tup_db_create_link a b db).2.link = db.link ∨
      (a ≠ b ∧ (tup_db_create_link a b db).2.link = db.link ++ [⟨a, b⟩]) := by
  unfold tup_db_create_link
  rcases he : tup_db_link_exists a b db with ⟨rc, db1⟩
  have hl : db1.link = db.link := by
    have h2 := link_exists_frame a b db
    rw [he] at h2
    simp only at h2
    rw [h2]
    exact (sqlite3_step_frame db).2.1
  simp only
  by_cases hrc : rc = 0
  · left
    simp [hrc, hl]
  · rw [if_neg hrc]
    unfold link_insert
    by_cases hab : a = b
    · left
      simp [hab, hl]
    · rw [if_neg hab]
      rcases hs : sqlite3_step db1 with ⟨ok, db2⟩
      have hl2 : db2.link = db1.link := by
        have := (sqlite3_step_frame db1).2.1
        rw [hs] at this
        exact this
      cases ok
      · left
        simp [hl2, hl]
      · right
        refine ⟨hab, ?_⟩
        simp [hl2, hl]

theorem create_link_frame (a b : Int) (db : Db) :
    (tup_db_create_link a b db).2.node = db.node ∧
      (tup_db_create_link a b db).2.config = db.config ∧
      (tup_db_create_link a b db).2.txn = db.txn := by
  unfold tup_db_create_link
  rcases he : tup_db_link_exists a b db with ⟨rc, db1⟩
  have h2 := link_exists_frame a b db
  rw [he] at h2
  simp only at h2
  have hfr := sqlite3_step_frame db
  rw [← h2] at hfr
  simp only
  by_cases hrc : rc = 0
  · simp [hrc, hfr]
  · rw [if_neg hrc]
    unfold link_insert
    by_cases hab : a = b
    · simp [hab, hfr]
    · rw [if_neg hab]
      have hfr2 := sqlite3_step_frame db1
      rcases hs : sqlite3_step db1 with ⟨ok, db2⟩
      rw [hs] at hfr2
      simp only at hfr2
      cases ok <;> simp [hfr2, hfr]

/-- C3 (self-loop rejection).  For every id `x` and every store whose link
table has no row `(x, x)`, whatever the backend answers, `tup_db_create_link
x x` returns -1 and leaves the three tables as they were; and a link table
without self-loops has none after any `tup_db_create_link a b`. -/
theorem create_link_self_rejected (x : Int) (db : Db)
    (h : ∀ l ∈ db.link, ¬ (l.from_id = x ∧ l.to_id = x)) :
    (tup_db_create_link x x db).1 = -1
    ∧ (tup_db_create_link x x db).2.tables = db.tables
    ∧ ((∀ l ∈ db.link, l.from_id ≠ l.to_id) →
        ∀ a b, ∀ l ∈ (tup_db_create_link a b db).2.link, l.from_id ≠ l.to_id) := by
  refine ⟨?_, ?_, ?_⟩
  · have h1 := link_exists_absent x x db h
    unfold tup_db_create_link
    rcases he : tup_db_link_exists x x db with ⟨rc, db1⟩
    rw [he] at h1
    simp only at h1
    subst h1
    simp [link_insert]
  · have hfr := create_link_frame x x db
    rcases create_link_link x x db with hl | ⟨hne, _⟩
    · simp [Db.tables, hfr.1, hfr.2.1, hl]
    · exact absurd rfl hne
  · intro hno a b l hl
    rcases create_link_link a b db with e | ⟨hne, e⟩
    · rw [e] at hl
      exact hno l hl
    · rw [e] at hl
      rcases List.mem_append.mp hl with hl | hl
      · exact hno l hl
      · have : l = ⟨a, b⟩ := by simpa using hl
        subst this
        exact hne

/-- C3 at a concrete store: one link `(1, 2)`, the call for `(1, 1)`. -/
theorem create_link_self_rejected_witness :
    (tup_db_create_link 1 1 ⟨[], [⟨1, 2⟩], [], 0, none, []⟩).1 = -1
    ∧ (tup_db_create_link 1 1 ⟨[], [⟨1, 2⟩], [], 0, none, []⟩).2.link = [⟨1, 2⟩] := by
  have h := create_link_self_rejected 1 ⟨[], [⟨1, 2⟩], [], 0, none, []⟩ (by decide)
  exact ⟨h.1, congrArg Tables.link h.2.1⟩

/-- C4 (link idempotence).  On an error-free backend, for `a ≠ b`, a store
without a row `(a, b)` and `N ≥ 1`: every one of `N` successive calls of
`tup_db_create_link a b` returns 0, the link table is then the old one with
the single row `(a, b)` added (so it holds exactly one such row, the others as
before), the node and config tables are unchanged, and `tup_db_link_exists a b`
answers 0 (present) after these `N` calls, for every such `N`. -/
theorem create_link_idempotent (a b : Int) (db : Db) (N : Nat)
    (hf : db.faults = []) (hab : a ≠ b) (hN : 1 ≤ N)
    (h : ∀ l ∈ db.link, ¬ (l.from_id = a ∧ l.to_id = b)) :
    (create_link_times a b N db).1 = List.replicate N 0
    ∧ (create_link_times a b N db).2.link = db.link ++ [⟨a, b⟩]
    ∧ (create_link_times a b N db).2.link.count ⟨a, b⟩ = 1
    ∧ (create_link_times a b N db).2.node = db.node
    ∧ (create_link_times a b N db).2.config = db.config
    ∧ (tup_db_link_exists a b (create_link_times a b N db).2).1 = 0 := by
  obtain ⟨n, rfl⟩ : ∃ n, N = n + 1 := ⟨N - 1, by omega⟩
  have hmem : (⟨a, b⟩ : Link) ∈ db.link ++ [⟨a, b⟩] := by simp
  have hf2 : ({ db with link := db.link ++ [⟨a, b⟩] } : Db).faults = [] := hf
  have hrun : create_link_times a b (n + 1) db
      = (List.replicate (n + 1) 0, { db with link := db.link ++ [⟨a, b⟩] }) := by
    simp only [create_link_times, create_link_absent a b db hf hab h,
      create_link_times_present a b n _ hf2 hmem, List.replicate_succ]
  rw [hrun]
  refine ⟨rfl, rfl, ?_, rfl, rfl, ?_⟩
  · have hnot : (⟨a, b⟩ : Link) ∉ db.link := fun hm => h _ hm ⟨rfl, rfl⟩
    simp [List.count_append, List.count_eq_zero_of_not_mem hnot]
  · rw [link_exists_present a b _ hf2 hmem]

/-- C4 at a concrete store: three calls for `(1, 2)` next to the link `(2, 3)`. -/
theorem create_link_idempotent_witness :
    (create_link_times 1 2 3 ⟨[], [⟨2, 3⟩], [], 0, none, []⟩).1 = [0, 0, 0]
    ∧ (create_link_times 1 2 3 ⟨[], [⟨2, 3⟩], [], 0, none, []⟩).2.link = [⟨2, 3⟩, ⟨1, 2⟩] := by
  have h := create_link_idempotent 1 2 ⟨[], [⟨2, 3⟩], [], 0, none, []⟩ 3 rfl (by decide)
    (by decide) (by decide)
  exact ⟨h.1, h.2.1⟩

/-! ## The cascade at two inputs -/

/-- C5 (cascade completeness), the code at a directory id beyond the C `int`
range, with `TUP_FLAGS_DELETE = 4`, file type 0 and directory type 2.
Directory `A` has id 2^32 + 1 and holds the file `f`; the file `g` lies in
directory 1, outside `A`.  `tup_db_delete_dir(2^32 + 1)` returns 0, marks `A`,
leaves `f` (in the subtree) unmarked and marks `g` (outside it): `delete_dir`
binds `dt` with `sqlite3_bind_int`, so its update runs for `dir = 1`. -/
theorem delete_dir_truncates_dt :
    tup_db_delete_dir ⟨4, 0, 2, 1⟩ 1 4294967297
        ⟨[⟨1, 0, 2, 0, "d"⟩, ⟨2, 1, 0, 0, "g"⟩, ⟨4294967297, 0, 2, 0, "A"⟩,
          ⟨4294967298, 4294967297, 0, 0, "f"⟩], [], [], 0, none, []⟩
      = some (0,
        ⟨[⟨1, 0, 2, 0, "d"⟩, ⟨2, 1, 0, 4, "g"⟩, ⟨4294967297, 0, 2, 4, "A"⟩,
          ⟨4294967298, 4294967297, 0, 0, "f"⟩], [], [], 0, none, []⟩) := by
  decide

/-- C9 (cascade abort on failure), the code at a failing step, with
`TUP_FLAGS_DELETE = 4`, file type 0 and directory type 2.  Directory `A`
(id 1) holds the directories `B` (id 2, with the file `fb`) and `C` (id 3,
with the file `fc`).  The fourth statement, the update inside `delete_dir(C)`,
fails.  `tup_db_delete_dir(1)` still returns 0, and `B` is processed after
the failure (`fb` is marked, `fc` is not). -/
theorem delete_dir_ignores_child_failure :
    tup_db_delete_dir ⟨4, 0, 2, 1⟩ 3 1
        ⟨[⟨1, 0, 2, 0, "A"⟩, ⟨2, 1, 2, 0, "B"⟩, ⟨3, 1, 2, 0, "C"⟩, ⟨4, 2, 0, 0, "fb"⟩,
          ⟨5, 3, 0, 0, "fc"⟩], [], [], 0, none, [false, false, false, true]⟩
      = some (0,
        ⟨[⟨1, 0, 2, 4, "A"⟩, ⟨2, 1, 2, 4, "B"⟩, ⟨3, 1, 2, 4, "C"⟩, ⟨4, 2, 0, 4, "fb"⟩,
          ⟨5, 3, 0, 0, "fc"⟩], [], [], 0, none, []⟩) := by
  decide

/-! ## Duplicates and the glob query -/

theorem new_rowid_bound (ns : List Node) (b : Int) (hb : ns = [] → 1 ≤ b)
    (hb2 : b ≤ INT64_MAX) (h : ∀ n ∈ ns, n.id < b) : ∃ r, new_rowid ns = some r ∧ r ≤ b := by
  cases ns with
  | nil => exact ⟨1, rfl, hb rfl⟩
  | cons a rest =>
    have hle : rest.foldl (fun m x => max m x.id) a.id ≤ b - 1 := by
      apply foldl_max_le
      · have := h a (List.mem_cons_self _ _)
        omega
      · intro k hk
        have := h k (List.mem_cons_of_mem _ hk)
        omega
    refine ⟨rest.foldl (fun m x => max m x.id) a.id + 1, ?_, by omega⟩
    simp only [new_rowid]
    rw [if_pos (by omega)]

theorem create_dup_node_ok (db : Db) (dt : Int) (name : String) (type flags r : Int)
    (hf : db.faults = []) (hr : new_rowid db.node = some r) :
    tup_db_create_dup_node dt name type flags db
      = (r, { db with node := db.node ++ [⟨r, dt, type, flags, name⟩],
                      last_insert_rowid := r }) := by
  have hb : bind_text name (-1) = name := by simp [bind_text]
  simp [tup_db_create_dup_node, node_insert_ok db dt name (-1) type flags r hf hr, hb]

theorem visit_rows_record (rows seen : List db_node) :
    visit_rows record_visit rows seen = (0, seen ++ rows) := by
  induction rows generalizing seen with
  | nil => simp [visit_rows]
  | cons a rest ih => simp [visit_rows, record_visit, ih]

/-- The rows the recording visitor sees in the glob query. -/
theorem select_node_dir_glob_record (K : Consts) (g : String → String → Bool) (dt : Int)
    (glob : String) (db : Db) (hf : db.faults = []) :
    (tup_db_select_node_dir_glob K g record_visit [] dt glob db).2.1
      = (db.node.filter (fun n =>
            decide (n.dir = dt) && decide (n.type = K.TUP_NODE_FILE) &&
            decide (n.flags ≠ K.TUP_FLAGS_DELETE) && g glob n.name)).map
          (fun n => ⟨n.id, dt, some n.name, wrap32 n.type, wrap32 n.flags⟩) := by
  simp only [tup_db_select_node_dir_glob, sqlite3_step_nil db hf, visit_rows_record,
    List.nil_append]

/-- C6 as stated fails: with `TUP_NODE_FILE = 0`, two command nodes (type 1)
created by `tup_db_create_dup_node(0, "a", 1, 0)` in the empty store get the
ids 1 and 2, and the glob query for `"a"` in directory 0 passes no row at all
to the visitor, whatever the `GLOB` operator answers. -/
theorem create_dup_node_glob_counterexample :
    ¬ (∀ (g : String → String → Bool),
        ∃ v ∈ (tup_db_select_node_dir_glob ⟨4, 0, 2, 1⟩ g record_visit [] 0 "a"
            (tup_db_create_dup_node 0 "a" 1 0
              (tup_db_create_dup_node 0 "a" 1 0 ⟨[], [], [], 0, none, []⟩).2).2).2.1,
          v.tupid = (tup_db_create_dup_node 0 "a" 1 0 ⟨[], [], [], 0, none, []⟩).1) := by
  intro h
  obtain ⟨v, hv, _⟩ := h (fun _ _ => true)
  have hnil : (tup_db_select_node_dir_glob ⟨4, 0, 2, 1⟩ (fun _ _ => true) record_visit [] 0 "a"
      (tup_db_create_dup_node 0 "a" 1 0
        (tup_db_create_dup_node 0 "a" 1 0 ⟨[], [], [], 0, none, []⟩).2).2).2.1 = [] := by
    decide
  rw [hnil] at hv
  cases hv

/-- C6 amended.  On an error-free backend, in a store whose node ids are
below `INT64_MAX - 1`, two calls of `tup_db_create_dup_node` with the same
`(dir, name, type, flags)` return two distinct ids and append two rows with
these ids; when moreover the type is `TUP_NODE_FILE`, the flags are not
`TUP_FLAGS_DELETE` and the name matches itself as a `GLOB` pattern, the glob
query for `(dir, name)` passes both rows to the recording visitor. -/
theorem create_dup_node_twice (K : Consts) (g : String → String → Bool) (db : Db) (dt : Int)
    (name : String) (type flags : Int)
    (hf : db.faults = [])
    (hids : ∀ n ∈ db.node, n.id < INT64_MAX - 1) :
    (tup_db_create_dup_node dt name type flags db).1
      ≠ (tup_db_create_dup_node dt name type flags
          (tup_db_create_dup_node dt name type flags db).2).1
    ∧ (tup_db_create_dup_node dt name type flags
          (tup_db_create_dup_node dt name type flags db).2).2.node
        = db.node ++
          [⟨(tup_db_create_dup_node dt name type flags db).1, dt, type, flags, name⟩,
           ⟨(tup_db_create_dup_node dt name type flags
              (tup_db_create_dup_node dt name type flags db).2).1, dt, type, flags, name⟩]
    ∧ (type = K.TUP_NODE_FILE → flags ≠ K.TUP_FLAGS_DELETE → g name name = true →
        (⟨(tup_db_create_dup_node dt name type flags db).1, dt, some name, wrap32 type,
            wrap32 flags⟩ : db_node)
          ∈ (tup_db_select_node_dir_glob K g record_visit [] dt name
              (tup_db_create_dup_node dt name type flags
                (tup_db_create_dup_node dt name type flags db).2).2).2.1
        ∧ (⟨(tup_db_create_dup_node dt name type flags
              (tup_db_create_dup_node dt name type flags db).2).1, dt, some name, wrap32 type,
            wrap32 flags⟩ : db_node)
          ∈ (tup_db_select_node_dir_glob K g record_visit [] dt name
              (tup_db_create_dup_node dt name type flags
                (tup_db_create_dup_node dt name type flags db).2).2).2.1) := by
  obtain ⟨r1, hr1, hle1⟩ :=
    new_rowid_bound db.node (INT64_MAX - 1) (fun _ => by decide) (by decide) hids
  have hgt1 := new_rowid_gt db.node r1 hr1
  rw [create_dup_node_ok db dt name type flags r1 hf hr1]
  have hids2 : ∀ n ∈ db.node ++ [(⟨r1, dt, type, flags, name⟩ : Node)], n.id < r1 + 1 := by
    intro n hn
    rcases List.mem_append.mp hn with hn | hn
    · have := hgt1 n hn
      omega
    · have : n = ⟨r1, dt, type, flags, name⟩ := by simpa using hn
      subst this
      show r1 < r1 + 1
      omega
  have hmax : r1 + 1 ≤ INT64_MAX := by
    have : INT64_MAX - 1 + 1 ≤ INT64_MAX := by decide
    omega
  obtain ⟨r2, hr2, _⟩ := new_rowid_bound _ (r1 + 1) (fun e => by simp at e) hmax hids2
  have hlt : r1 < r2 :=
    new_rowid_gt _ r2 hr2 ⟨r1, dt, type, flags, name⟩ (by simp)
  have hf2 : ({ db with node := db.node ++ [⟨r1, dt, type, flags, name⟩],
                        last_insert_rowid := r1 } : Db).faults = [] := hf
  rw [create_dup_node_ok _ dt name type flags r2 hf2 hr2]
  refine ⟨by show r1 ≠ r2; omega, by simp, ?_⟩
  intro hty hfl hg
  dsimp only
  rw [select_node_dir_glob_record K g dt name]
  · subst hty
    simp [hfl, hg]
  · exact hf

/-- C6 amended, at a concrete store: two files `a` created next to the file
`x`, with string equality standing for `GLOB`. -/
theorem create_dup_node_twice_witness :
    (tup_db_create_dup_node 0 "a" 0 0 ⟨[⟨1, 0, 0, 0, "x"⟩], [], [], 0, none, []⟩).1
      ≠ (tup_db_create_dup_node 0 "a" 0 0
          (tup_db_create_dup_node 0 "a" 0 0 ⟨[⟨1, 0, 0, 0, "x"⟩], [], [], 0, none, []⟩).2).1
    ∧ (tup_db_select_node_dir_glob ⟨4, 0, 2, 1⟩ (fun p t => decide (p = t)) record_visit [] 0 "a"
        (tup_db_create_dup_node 0 "a" 0 0
          (tup_db_create_dup_node 0 "a" 0 0
            ⟨[⟨1, 0, 0, 0, "x"⟩], [], [], 0, none, []⟩).2).2).2.1
      = [⟨2, 0, some "a", 0, 0⟩, ⟨3, 0, some "a", 0, 0⟩] :=
  ⟨(create_dup_node_twice ⟨4, 0, 2, 1⟩ (fun p t => decide (p = t))
      ⟨[⟨1, 0, 0, 0, "x"⟩], [], [], 0, none, []⟩ 0 "a" 0 0 rfl (by decide)).1,
    by decide⟩

/-! ## Config -/

/-- C7 (config default fallback).  On an error-free backend, when the config
table has no row with key `k`, `tup_db_config_get_string` with default `d`
returns 0, hands back `d`, and leaves the connection, so the config table, as
it was. -/
theorem config_get_string_default (db : Db) (k d : String)
    (hf : db.faults = []) (h : ∀ c ∈ db.config, c.lval ≠ k) :
    tup_db_config_get_string k d db = (0, some d, db) := by
  have hfind : db.config.find? (fun c => decide (c.lval = k)) = none := by
    rw [List.find?_eq_none]
    intro c hc
    simpa using h c hc
  simp [tup_db_config_get_string, sqlite3_step_nil db hf, hfind]

/-- C7 at the seeded config table. -/
theorem config_get_string_default_witness :
    tup_db_config_get_string "missing_key" "fallback"
        ⟨[], [], [⟨"show_progress", "1"⟩, ⟨"keep_going", "0"⟩, ⟨"db_sync", "1"⟩], 0, none, []⟩
      = (0, some "fallback",
        ⟨[], [], [⟨"show_progress", "1"⟩, ⟨"keep_going", "0"⟩, ⟨"db_sync", "1"⟩], 0, none, []⟩) :=
  config_get_string_default _ "missing_key" "fallback" rfl (by decide)

/-! ## Rowids of new rows -/

theorem node_select_frame (dt : Int) (name : String) (len : Int) (dbn : db_node) (db : Db) :
    (node_select dt name len dbn db).2.2 = (sqlite3_step db).2 := by
  unfold node_select
  rcases sqlite3_step db with ⟨ok, db1⟩
  cases ok
  · rfl
  · simp only
    split <;> rfl

/-- The two outcomes of `node_insert`. -/
theorem node_insert_cases (dt : Int) (name : String) (len type flags : Int) (db : Db) :
    node_insert dt name len type flags db = (-1, (sqlite3_step db).2) ∨
      ∃ r, new_rowid db.node = some r ∧
        node_insert dt name len type flags db
          = (0, { (sqlite3_step db).2 with
                    node := db.node ++ [⟨r, dt, type, flags, bind_text name len⟩],
                    last_insert_rowid := r }) := by
  unfold node_insert
  have hfr := (sqlite3_step_frame db).1
  rcases hs : sqlite3_step db with ⟨ok, db1⟩
  rw [hs] at hfr
  simp only at hfr
  cases ok
  · left
    rfl
  · simp only
    rw [hfr]
    cases hr : new_rowid db.node with
    | none =>
      left
      rfl
    | some r =>
      right
      exact ⟨r, rfl, rfl⟩

theorem conn_kept_refl (a : Db) : conn_kept a a := ⟨rfl, fun h => h⟩

theorem conn_kept_trans {a b c : Db} (h1 : conn_kept a b) (h2 : conn_kept b c) :
    conn_kept a c := ⟨h2.1.trans h1.1, fun h => h2.2 (h1.2 h)⟩

theorem step_conn (db : Db) : conn_kept db (sqlite3_step db).2 := by
  unfold sqlite3_step conn_kept
  cases h : db.faults with
  | nil => simp [h]
  | cons f fs => simp

theorem node_select_conn (dt : Int) (name : String) (len : Int) (dbn : db_node) (db : Db) :
    conn_kept db (node_select dt name len dbn db).2.2 := by
  rw [node_select_frame]
  exact step_conn db

theorem node_insert_conn (dt : Int) (name : String) (len type flags : Int) (db : Db) :
    conn_kept db (node_insert dt name len type flags db).2 := by
  rcases node_insert_cases dt name len type flags db with h | ⟨r, _, h⟩
  · rw [h]
    exact step_conn db
  · rw [h]
    exact step_conn db

theorem set_flags_by_id_conn (tupid flags : Int) (db : Db) :
    conn_kept db (tup_db_set_flags_by_id tupid flags db).2 := by
  unfold tup_db_set_flags_by_id
  have hfr := step_conn db
  rcases hs : sqlite3_step db with ⟨ok, db1⟩
  rw [hs] at hfr
  cases ok <;> exact hfr

theorem create_node_part_conn (K : Consts) (dt : Int) (name : String) (len type flags : Int)
    (c : Option Int) (db : Db) :
    conn_kept db (tup_db_create_node_part K dt name len type flags c db).2.2 := by
  unfold tup_db_create_node_part
  have hsel := node_select_conn dt name len ⟨-1, -1, none, 0, 0⟩ db
  rcases hns : node_select dt name len ⟨-1, -1, none, 0, 0⟩ db with ⟨rc, dbn, db1⟩
  rw [hns] at hsel
  simp only at hsel
  simp only
  split
  · exact hsel
  · split
    · split
      · have hsf := set_flags_by_id_conn dbn.tupid
          (int_and dbn.flags (int_not K.TUP_FLAGS_DELETE)) db1
        rcases hsf2 : tup_db_set_flags_by_id dbn.tupid
          (int_and dbn.flags (int_not K.TUP_FLAGS_DELETE)) db1 with ⟨rc2, db2⟩
        rw [hsf2] at hsf
        simp only
        split <;> exact conn_kept_trans hsel hsf
      · exact hsel
    · have hin := node_insert_conn dt name len type flags db1
      rcases hin2 : node_insert dt name len type flags db1 with ⟨rc3, db3⟩
      rw [hin2] at hin
      simp only
      split <;> exact conn_kept_trans hsel hin

theorem create_node_conn (K : Consts) (dt : Int) (name : String) (type flags : Int) (db : Db) :
    conn_kept db (tup_db_create_node K dt name type flags db).2 := by
  unfold tup_db_create_node
  exact create_node_part_conn K dt name (-1) type flags none db

theorem create_dup_node_conn (dt : Int) (name : String) (type flags : Int) (db : Db) :
    conn_kept db (tup_db_create_dup_node dt name type flags db).2 := by
  unfold tup_db_create_dup_node
  have hin := node_insert_conn dt name (-1) type flags db
  rcases hin2 : node_insert dt name (-1) type flags db with ⟨rc, db1⟩
  rw [hin2] at hin
  simp only
  split <;> exact hin

theorem set_flags_by_name_conn (dt : Int) (name : String) (flags : Int) (db : Db) :
    conn_kept db (tup_db_set_flags_by_name dt name flags db).2 := by
  unfold tup_db_set_flags_by_name
  have hsel := node_select_conn dt name (-1) ⟨-1, -1, none, 0, 0⟩ db
  rcases hns : node_select dt name (-1) ⟨-1, -1, none, 0, 0⟩ db with ⟨rc, dbn, db1⟩
  rw [hns] at hsel
  simp only at hsel
  simp only
  split
  · exact hsel
  · split
    · exact hsel
    · have hsf := set_flags_by_id_conn dbn.tupid flags db1
      rcases hsf2 : tup_db_set_flags_by_id dbn.tupid flags db1 with ⟨rc2, db2⟩
      rw [hsf2] at hsf
      simp only
      split <;> exact conn_kept_trans hsel hsf

theorem delete_node_conn (tupid : Int) (db : Db) :
    conn_kept db (tup_db_delete_node tupid db).2 := by
  unfold tup_db_delete_node
  have hfr := step_conn db
  rcases hs : sqlite3_step db with ⟨ok, db1⟩
  rw [hs] at hfr
  cases ok <;> exact hfr

theorem get_recurse_dirs_conn (K : Consts) (dt : Int) (list : List Int) (db : Db) :
    conn_kept db (get_recurse_dirs K dt list db).2.2 := by
  unfold get_recurse_dirs
  have hfr := step_conn db
  rcases hs : sqlite3_step db with ⟨ok, db1⟩
  rw [hs] at hfr
  cases ok <;> exact hfr

/-- A property that each step of a `foldlM` in `Option` keeps is kept by the
whole fold. -/
theorem foldlM_keeps {α : Type} (P : Db → Prop) (f : Db → α → Option Db)
    (hstep : ∀ d a d1, P d → f d a = some d1 → P d1) (l : List α) (d d1 : Db)
    (hd : P d) (h : l.foldlM f d = some d1) : P d1 := by
  induction l generalizing d with
  | nil =>
    simp only [List.foldlM_nil] at h
    cases h
    exact hd
  | cons a rest ih =>
    simp only [List.foldlM_cons] at h
    cases hfa : f d a with
    | none => simp [hfa] at h
    | some d2 =>
      simp only [hfa] at h
      exact ih d2 (hstep d a d2 hd hfa) h

theorem delete_dir_conn (K : Consts) (fuel : Nat) (dt : Int) (db : Db) (r : Int × Db)
    (h : delete_dir K fuel dt db = some r) : conn_kept db r.2 := by
  induction fuel generalizing dt db r with
  | zero => simp [delete_dir] at h
  | succ n ih =>
    unfold delete_dir at h
    have hfr := step_conn db
    rcases hs : sqlite3_step db with ⟨ok, db1⟩
    rw [hs] at hfr h
    cases ok
    · simp only at h
      cases h
      exact hfr
    · simp only at h
      have hg := get_recurse_dirs_conn K dt []
        { db1 with
            node := db1.node.map (fun n =>
              if n.dir = wrap32 dt then { n with flags := K.TUP_FLAGS_DELETE } else n) }
      rcases hg2 : get_recurse_dirs K dt []
        { db1 with
            node := db1.node.map (fun n =>
              if n.dir = wrap32 dt then { n with flags := K.TUP_FLAGS_DELETE } else n) }
        with ⟨rc, subdir_list, db2⟩
      rw [hg2] at hg h
      simp only at h hg
      have h12 : conn_kept db db2 := conn_kept_trans hfr hg
      split at h
      · cases h
        exact h12
      · rw [Option.map_eq_some'] at h
        obtain ⟨d, hd, rfl⟩ := h
        refine foldlM_keeps (fun x => conn_kept db x) _ ?_ subdir_list db2 d h12 hd
        intro x a x1 hx hxa
        rw [Option.map_eq_some'] at hxa
        obtain ⟨r1, hr1, rfl⟩ := hxa
        exact conn_kept_trans hx (ih a x r1 hr1)

theorem tup_db_delete_dir_conn (K : Consts) (fuel : Nat) (dt : Int) (db : Db) (r : Int × Db)
    (h : tup_db_delete_dir K fuel dt db = some r) : conn_kept db r.2 := by
  unfold tup_db_delete_dir at h
  have hsf := set_flags_by_id_conn dt K.TUP_FLAGS_DELETE db
  rcases hsf2 : tup_db_set_flags_by_id dt K.TUP_FLAGS_DELETE db with ⟨rc, db1⟩
  rw [hsf2] at hsf h
  simp only at h hsf
  split at h
  · cases h
    exact hsf
  · exact conn_kept_trans hsf (delete_dir_conn K fuel dt db1 r h)

theorem create_link_conn (a b : Int) (db : Db) :
    conn_kept db (tup_db_create_link a b db).2 := by
  unfold tup_db_create_link
  have h1 : conn_kept db (tup_db_link_exists a b db).2 := by
    rw [link_exists_frame]
    exact step_conn db
  rcases he : tup_db_link_exists a b db with ⟨rc, db1⟩
  rw [he] at h1
  simp only at h1
  simp only
  split
  · exact h1
  · have h2 : conn_kept db1 (link_insert a b db1).2 := by
      unfold link_insert
      split
      · exact conn_kept_refl db1
      · have hfr := step_conn db1
        rcases hs : sqlite3_step db1 with ⟨ok, db2⟩
        rw [hs] at hfr
        cases ok <;> exact hfr
    rcases hi : link_insert a b db1 with ⟨rc2, db2⟩
    rw [hi] at h2
    simp only
    split <;> exact conn_kept_trans h1 h2

theorem delete_links_conn (tupid : Int) (db : Db) :
    conn_kept db (tup_db_delete_links tupid db).2 := by
  unfold tup_db_delete_links
  have hfr := step_conn db
  rcases hs : sqlite3_step db with ⟨ok, db1⟩
  rw [hs] at hfr
  cases ok <;> exact hfr

theorem or_dircmd_flags_conn (K : Consts) (parent flags : Int) (db : Db) :
    conn_kept db (tup_db_or_dircmd_flags K parent flags db).2 := by
  unfold tup_db_or_dircmd_flags
  have hfr := step_conn db
  rcases hs : sqlite3_step db with ⟨ok, db1⟩
  rw [hs] at hfr
  cases ok <;> exact hfr

theorem set_cmd_output_flags_conn (K : Consts) (parent flags : Int) (db : Db) :
    conn_kept db (tup_db_set_cmd_output_flags K parent flags db).2 := by
  unfold tup_db_set_cmd_output_flags
  have hfr := step_conn db
  rcases hs : sqlite3_step db with ⟨ok, db1⟩
  rw [hs] at hfr
  cases ok <;> exact hfr

theorem set_dependent_dir_flags_conn (K : Consts) (dt flags : Int) (db : Db) :
    conn_kept db (tup_db_set_dependent_dir_flags K dt flags db).2 := by
  unfold tup_db_set_dependent_dir_flags
  have hfr := step_conn db
  rcases hs : sqlite3_step db with ⟨ok, db1⟩
  rw [hs] at hfr
  cases ok <;> exact hfr

theorem config_replace_conn (lval rval : String) (db : Db) :
    conn_kept db (config_replace lval rval db).2 := by
  unfold config_replace
  have hfr := step_conn db
  rcases hs : sqlite3_step db with ⟨ok, db1⟩
  rw [hs] at hfr
  cases ok <;> exact hfr

/-- No mutating call opens, closes or rolls back a transaction. -/
theorem mutation_run_conn (K : Consts) (fuel : Nat) (m : Mutation) (db db1 : Db)
    (h : m.run K fuel db = some db1) : conn_kept db db1 := by
  cases m with
  | delete_dir dt =>
    simp only [Mutation.run, Option.map_eq_some'] at h
    obtain ⟨r, hr, rfl⟩ := h
    exact tup_db_delete_dir_conn K fuel dt db r hr
  | create_node dt name type flags =>
    simp only [Mutation.run, Option.some.injEq] at h
    subst h
    exact create_node_conn K dt name type flags db
  | create_node_part dt name len type flags c =>
    simp only [Mutation.run, Option.some.injEq] at h
    subst h
    exact create_node_part_conn K dt name len type flags c db
  | create_dup_node dt name type flags =>
    simp only [Mutation.run, Option.some.injEq] at h
    subst h
    exact create_dup_node_conn dt name type flags db
  | set_flags_by_name dt name flags =>
    simp only [Mutation.run, Option.some.injEq] at h
    subst h
    exact set_flags_by_name_conn dt name flags db
  | set_flags_by_id tupid flags =>
    simp only [Mutation.run, Option.some.injEq] at h
    subst h
    exact set_flags_by_id_conn tupid flags db
  | delete_node tupid =>
    simp only [Mutation.run, Option.some.injEq] at h
    subst h
    exact delete_node_conn tupid db
  | create_link a b =>
    simp only [Mutation.run, Option.some.injEq] at h
    subst h
    exact create_link_conn a b db
  | delete_links tupid =>
    simp only [Mutation.run, Option.some.injEq] at h
    subst h
    exact delete_links_conn tupid db
  | or_dircmd_flags parent flags =>
    simp only [Mutation.run, Option.some.injEq] at h
    subst h
    exact or_dircmd_flags_conn K parent flags db
  | set_cmd_output_flags parent flags =>
    simp only [Mutation.run, Option.some.injEq] at h
    subst h
    exact set_cmd_output_flags_conn K parent flags db
  | set_dependent_dir_flags dt flags =>
    simp only [Mutation.run, Option.some.injEq] at h
    subst h
    exact set_dependent_dir_flags_conn K dt flags db
  | config_set_int lval x =>
    simp only [Mutation.run, Option.some.injEq] at h
    subst h
    exact config_replace_conn lval (toString x) db
  | config_set_string lval rval =>
    simp only [Mutation.run, Option.some.injEq] at h
    subst h
    exact config_replace_conn lval rval db

theorem run_mutations_conn (K : Consts) (fuel : Nat) (ms : List Mutation) (db db1 : Db)
    (h : run_mutations K fuel ms db = some db1) : conn_kept db db1 := by
  induction ms generalizing db with
  | nil =>
    simp only [run_mutations, Option.some.injEq] at h
    subst h
    exact conn_kept_refl db
  | cons m rest ih =>
    simp only [run_mutations] at h
    cases hm : m.run K fuel db with
    | none => simp [hm] at h
    | some d =>
      simp only [hm] at h
      exact conn_kept_trans (mutation_run_conn K fuel m db d hm) (ih d h)

/-- C8 (transaction atomicity).  For every connection `s` on which
`tup_db_begin` succeeds and every sequence of node, link and config mutations
that runs to its end (with any backend errors on the way): if the following
`tup_db_rollback` succeeds, the node, link and config tables are again those
of `s`; and on an error-free backend it does succeed. -/
theorem rollback_restores (K : Consts) (fuel : Nat) (s : Db) (ms : List Mutation) (s1 : Db)
    (hbegin : (tup_db_begin s).1 = 0)
    (hrun : run_mutations K fuel ms (tup_db_begin s).2 = some s1) :
    ((tup_db_rollback s1).1 = 0 → (tup_db_rollback s1).2.tables = s.tables)
    ∧ (s.faults = [] → (tup_db_rollback s1).1 = 0) := by
  have hk := run_mutations_conn K fuel ms _ s1 hrun
  have hb : (tup_db_begin s).2.txn = some s.tables ∧
      (s.faults = [] → (tup_db_begin s).2.faults = []) := by
    unfold tup_db_begin at hbegin ⊢
    have hfr := sqlite3_step_frame s
    have hc := step_conn s
    rcases hs : sqlite3_step s with ⟨ok, db1⟩
    rw [hs] at hfr hbegin hc
    simp only at hfr
    cases ok
    · simp at hbegin
    · simp only at hbegin ⊢
      cases ht : db1.txn with
      | some t => simp [ht] at hbegin
      | none =>
        simp only
        exact ⟨by simp [Db.tables, hfr], hc.2⟩
  have htx : s1.txn = some s.tables := hk.1.trans hb.1
  constructor
  · intro hroll
    unfold tup_db_rollback at hroll ⊢
    have hfr := sqlite3_step_frame s1
    rcases hs : sqlite3_step s1 with ⟨ok, db1⟩
    rw [hs] at hfr hroll
    simp only at hfr
    cases ok
    · simp at hroll
    · simp only
      rw [hfr.2.2.2.1, htx]
      rfl
  · intro hf
    have hf1 : s1.faults = [] := hk.2 (hb.2 hf)
    simp only [tup_db_rollback, sqlite3_step_nil s1 hf1, htx]

/-- C8 at a concrete run: a node is created, a link added, directory 1
soft-deleted, a config value replaced, node 2 and the links of node 1 deleted,
and the rollback brings back the two nodes, the link and the config row. -/
theorem rollback_restores_witness :
    (tup_db_rollback
        ⟨[⟨1, 0, 2, 4, "A"⟩, ⟨3, 1, 0, 4, "g"⟩], [], [⟨"db_sync", "0"⟩], 3,
          some ⟨[⟨1, 0, 2, 0, "A"⟩, ⟨2, 1, 0, 1, "f"⟩], [⟨2, 1⟩], [⟨"db_sync", "1"⟩]⟩,
          []⟩).2.tables
      = ⟨[⟨1, 0, 2, 0, "A"⟩, ⟨2, 1, 0, 1, "f"⟩], [⟨2, 1⟩], [⟨"db_sync", "1"⟩]⟩ :=
  (rollback_restores ⟨4, 0, 2, 1⟩ 2
    ⟨[⟨1, 0, 2, 0, "A"⟩, ⟨2, 1, 0, 1, "f"⟩], [⟨2, 1⟩], [⟨"db_sync", "1"⟩], 2, none, []⟩
    [.create_node 1 "g" 0 0, .create_link 1 2, .delete_dir 1,
      .config_set_string "db_sync" "0", .delete_node 2, .delete_links 1]
    ⟨[⟨1, 0, 2, 4, "A"⟩, ⟨3, 1, 0, 4, "g"⟩], [], [⟨"db_sync", "0"⟩], 3,
      some ⟨[⟨1, 0, 2, 0, "A"⟩, ⟨2, 1, 0, 1, "f"⟩], [⟨2, 1⟩], [⟨"db_sync", "1"⟩]⟩, []⟩
    (by decide) (by decide)).1 (by decide)

/-! ## The cascade on an error-free backend, directory ids within `int` -/

theorem foldl_cons_ids (xs : List Node) (acc : List Int) :
    xs.foldl (fun l n => n.id :: l) acc = (xs.map (fun n => n.id)).reverse ++ acc := by
  induction xs generalizing acc with
  | nil => simp
  | cons a rest ih => simp [ih]

theorem mem_subdirs (K : Consts) (dt c : Int) (ns : List Node) :
    c ∈ subdirs K dt ns ↔ ∃ n ∈ ns, n.dir = dt ∧ n.type = K.TUP_NODE_DIR ∧ n.id = c := by
  unfold subdirs
  rw [foldl_cons_ids]
  simp only [List.append_nil, List.mem_reverse, List.mem_map, List.mem_filter,
    decide_eq_true_eq]
  constructor
  · rintro ⟨n, ⟨hn, hd, ht⟩, rfl⟩
    exact ⟨n, hn, hd, ht, rfl⟩
  · rintro ⟨n, hn, hd, ht, rfl⟩
    exact ⟨n, ⟨hn, hd, ht⟩, rfl⟩

/-- Marking does not change which directories lie in a directory. -/
theorem subdirs_mark_deleted (K : Consts) (dt : Int) (ids dirs : List Int) (ns : List Node) :
    subdirs K dt (mark_deleted K ids dirs ns) = subdirs K dt ns := by
  have h1 : ((fun n : Node => n.id) ∘ fun n : Node =>
      if n.id ∈ ids ∨ n.dir ∈ dirs then { n with flags := K.TUP_FLAGS_DELETE } else n)
      = fun n => n.id := by
    funext n
    simp only [Function.comp]
    split <;> rfl
  have h2 : ((fun n : Node => decide (n.dir = dt ∧ n.type = K.TUP_NODE_DIR)) ∘ fun n : Node =>
      if n.id ∈ ids ∨ n.dir ∈ dirs then { n with flags := K.TUP_FLAGS_DELETE } else n)
      = fun n => decide (n.dir = dt ∧ n.type = K.TUP_NODE_DIR) := by
    funext n
    simp only [Function.comp]
    split <;> rfl
  unfold subdirs mark_deleted
  rw [foldl_cons_ids, foldl_cons_ids, List.filter_map, List.map_map, h1, h2]

/-- The update of `delete_dir` on a marked table marks one more directory. -/
theorem mark_deleted_update (K : Consts) (dt : Int) (ids dirs : List Int) (ns : List Node) :
    (mark_deleted K ids dirs ns).map
        (fun n => if n.dir = dt then { n with flags := K.TUP_FLAGS_DELETE } else n)
      = mark_deleted K ids (dirs ++ [dt]) ns := by
  unfold mark_deleted
  rw [List.map_map]
  apply List.map_congr_left
  intro n _
  simp only [Function.comp, List.mem_append, List.mem_singleton]
  by_cases h1 : n.id ∈ ids ∨ n.dir ∈ dirs
  · have h2 : n.id ∈ ids ∨ n.dir ∈ dirs ∨ n.dir = dt := by tauto
    rw [if_pos h1, if_pos h2]
    simp
  · rw [if_neg h1]
    by_cases h3 : n.dir = dt
    · have h2 : n.id ∈ ids ∨ n.dir ∈ dirs ∨ n.dir = dt := by tauto
      rw [if_pos h3, if_pos h2]
    · have h2 : ¬ (n.id ∈ ids ∨ n.dir ∈ dirs ∨ n.dir = dt) := by tauto
      rw [if_neg h3, if_neg h2]

theorem get_recurse_dirs_ok (K : Consts) (dt : Int) (db : Db) (hf : db.faults = []) :
    get_recurse_dirs K dt [] db = (0, subdirs K dt db.node, db) := by
  simp only [get_recurse_dirs, sqlite3_step_nil db hf, subdirs]

theorem reached_iff (K : Consts) (ns : List Node) (d x : Int) :
    Reached K ns d x ↔ x = d ∨ ∃ c ∈ subdirs K d ns, Reached K ns c x := by
  constructor
  · intro h
    cases h with
    | root => exact Or.inl rfl
    | step _ _ n hn hd ht hr =>
      exact Or.inr ⟨n.id, (mem_subdirs K d n.id ns).mpr ⟨n, hn, hd, ht, rfl⟩, hr⟩
  · rintro (rfl | ⟨c, hc, hr⟩)
    · exact Reached.root x
    · obtain ⟨n, hn, hd, ht, rfl⟩ := (mem_subdirs K d c ns).mp hc
      exact Reached.step d x n hn hd ht hr

/-- The loop of `delete_dir` over a list of directories, given what one call
does for each of them. -/
theorem delete_dir_loop_marks (K : Consts) (ns0 : List Node) (fuel : Nat) (cs : List Int)
    (hcall : ∀ c ∈ cs, ∀ (ids dirs : List Int) (db : Db),
      db.node = mark_deleted K ids dirs ns0 → db.faults = [] →
      ∃ ds, (∀ x, x ∈ ds ↔ Reached K ns0 c x) ∧
        delete_dir K fuel c db
          = some (0, { db with node := mark_deleted K ids (dirs ++ ds) ns0 }))
    (ids dirs : List Int) (db : Db)
    (hnode : db.node = mark_deleted K ids dirs ns0) (hf : db.faults = []) :
    ∃ ds, (∀ x, x ∈ ds ↔ ∃ c ∈ cs, Reached K ns0 c x) ∧
      cs.foldlM (fun d id => (delete_dir K fuel id d).map (fun r => r.2)) db
        = some { db with node := mark_deleted K ids (dirs ++ ds) ns0 } := by
  induction cs generalizing dirs db with
  | nil =>
    refine ⟨[], by simp, ?_⟩
    simp only [List.foldlM_nil, List.append_nil, ← hnode]
    rfl
  | cons c rest ih =>
    obtain ⟨ds1, hds1, hrun1⟩ := hcall c (List.mem_cons_self _ _) ids dirs db hnode hf
    obtain ⟨ds2, hds2, hrun2⟩ := ih (fun c2 hc2 => hcall c2 (List.mem_cons_of_mem _ hc2))
      (dirs ++ ds1) { db with node := mark_deleted K ids (dirs ++ ds1) ns0 } rfl hf
    refine ⟨ds1 ++ ds2, ?_, ?_⟩
    · intro x
      simp only [List.mem_append, hds1, hds2, List.mem_cons, exists_eq_or_imp]
    · simp only [List.foldlM_cons, hrun1, Option.map_some', Option.bind_eq_bind,
        Option.some_bind]
      rw [hrun2, List.append_assoc]

/-- The recursion `delete_dir` on an error-free backend: when the directories
of `ns0` have a rank that decreases from a directory to the directories in it
(the dir relation is acyclic) and ids that are C `int`s, a call with more fuel
than the rank of `dt` returns 0 and marks the rows of the directories reached
from `dt`. -/
theorem delete_dir_marks (K : Consts) (ns0 : List Node) (rank : Int → Nat)
    (hacyc : ∀ n ∈ ns0, n.type = K.TUP_NODE_DIR → rank n.id < rank n.dir)
    (hint : ∀ n ∈ ns0, n.type = K.TUP_NODE_DIR → isInt n.id) (fuel : Nat) :
    ∀ (dt : Int) (ids dirs : List Int) (db : Db),
      db.node = mark_deleted K ids dirs ns0 → db.faults = [] → isInt dt → rank dt < fuel →
      ∃ ds, (∀ x, x ∈ ds ↔ Reached K ns0 dt x) ∧
        delete_dir K fuel dt db
          = some (0, { db with node := mark_deleted K ids (dirs ++ ds) ns0 }) := by
  induction fuel with
  | zero =>
    intro dt ids dirs db _ _ _ hr
    omega
  | succ k ih =>
    intro dt ids dirs db hnode hf hdt hr
    have hupd : db.node.map (fun n =>
        if n.dir = wrap32 dt then { n with flags := K.TUP_FLAGS_DELETE } else n)
        = mark_deleted K ids (dirs ++ [dt]) ns0 := by
      rw [wrap32_of_isInt dt hdt, hnode, mark_deleted_update]
    have hsub : subdirs K dt (mark_deleted K ids (dirs ++ [dt]) ns0) = subdirs K dt ns0 :=
      subdirs_mark_deleted K dt ids (dirs ++ [dt]) ns0
    have hcall : ∀ c ∈ subdirs K dt ns0, ∀ (ids dirs : List Int) (db : Db),
        db.node = mark_deleted K ids dirs ns0 → db.faults = [] →
        ∃ ds, (∀ x, x ∈ ds ↔ Reached K ns0 c x) ∧
          delete_dir K k c db
            = some (0, { db with node := mark_deleted K ids (dirs ++ ds) ns0 }) := by
      intro c hc ids2 dirs2 db2 hn2 hf2
      obtain ⟨n, hn, hd, ht, rfl⟩ := (mem_subdirs K dt c ns0).mp hc
      have h1 := hacyc n hn ht
      rw [hd] at h1
      exact ih n.id ids2 dirs2 db2 hn2 hf2 (hint n hn ht) (by omega)
    obtain ⟨ds, hds, hrun⟩ := delete_dir_loop_marks K ns0 k (subdirs K dt ns0) hcall ids
      (dirs ++ [dt]) { db with node := mark_deleted K ids (dirs ++ [dt]) ns0 } rfl hf
    refine ⟨dt :: ds, ?_, ?_⟩
    · intro x
      rw [reached_iff, List.mem_cons, hds]
    · have hf1 : ({ db with node := mark_deleted K ids (dirs ++ [dt]) ns0 } : Db).faults = [] :=
        hf
      simp only [delete_dir, sqlite3_step_nil db hf, hupd,
        get_recurse_dirs_ok K dt _ hf1, hsub]
      rw [if_neg (by decide), hrun]
      simp

/-- Cascade completeness where it holds.  On an error-free backend, for a
store whose directories have a rank that decreases from a directory to the
directories in it (the dir relation is acyclic) and ids that are C `int`s, and
for a C `int` `dt`: `tup_db_delete_dir(dt)` returns 0 once the fuel exceeds
the rank of `dt`, and the node table is the old one with the flags
overwritten by `TUP_FLAGS_DELETE` in exactly the rows with id `dt` or with a
directory reached from `dt`; the other tables are unchanged. -/
theorem tup_db_delete_dir_marks (K : Consts) (db : Db) (rank : Int → Nat) (dt : Int)
    (fuel : Nat)
    (hf : db.faults = [])
    (hacyc : ∀ n ∈ db.node, n.type = K.TUP_NODE_DIR → rank n.id < rank n.dir)
    (hint : ∀ n ∈ db.node, n.type = K.TUP_NODE_DIR → isInt n.id)
    (hdt : isInt dt) (hfuel : rank dt < fuel) :
    ∃ ds, (∀ x, x ∈ ds ↔ Reached K db.node dt x) ∧
      tup_db_delete_dir K fuel dt db
        = some (0, { db with node := mark_deleted K [dt] ds db.node }) := by
  have h0 : db.node.map (fun n =>
      if n.id = dt then { n with flags := K.TUP_FLAGS_DELETE } else n)
      = mark_deleted K [dt] [] db.node := by
    unfold mark_deleted
    apply List.map_congr_left
    intro n _
    simp
  obtain ⟨ds, hds, hrun⟩ := delete_dir_marks K db.node rank hacyc hint fuel dt [dt] []
    { db with node := mark_deleted K [dt] [] db.node } rfl hf hdt hfuel
  refine ⟨ds, hds, ?_⟩
  simp only [tup_db_delete_dir, set_flags_by_id_ok db dt _ hf, h0]
  rw [if_neg (by decide), hrun]
  simp

/-! ## Flag updates -/

/-- A relation that holds between every row and its image holds between a
table and its image, row by row. -/
theorem forall₂_map_self {α : Type} (R : α → α → Prop) (g : α → α) (l : List α)
    (h : ∀ m ∈ l, R m (g m)) : List.Forall₂ R l (l.map g) := by
  induction l with
  | nil => exact List.Forall₂.nil
  | cons a rest ih =>
    exact List.Forall₂.cons (h a (List.mem_cons_self _ _))
      (ih (fun m hm => h m (List.mem_cons_of_mem _ hm)))

theorem set_flags_by_name_present (db : Db) (dt : Int) (name : String) (flags : Int) (n : Node)
    (hf : db.faults = [])
    (hfind : db.node.find? (fun m => decide (m.dir = dt ∧ m.name = bind_text name (-1)))
      = some n)
    (hid : n.id ≠ -1) :
    tup_db_set_flags_by_name dt name flags db = tup_db_set_flags_by_id n.id flags db := by
  simp only [tup_db_set_flags_by_name, node_select_present db dt name (-1) _ n hf hfind]
  rw [set_flags_by_id_ok db n.id flags hf]
  simp [hid]

/-- C12 (full-overwrite set_flags).  On an error-free backend
`tup_db_set_flags_by_id(i, f)` returns 0 and changes the node table row by
row: a row with id `i` keeps its id, dir, type and name and gets the flags
`f`, whatever its old flags were; every other row stays as it is.  No row is
added or removed, and the link and config tables are unchanged.  When the
lookup of `(dir, name)` finds the row `n` (the first row with that directory
and name, its id not the not-found value -1), `tup_db_set_flags_by_name(dir,
name, f)` does exactly what `tup_db_set_flags_by_id(n.id, f)` does. -/
theorem set_flags_full_overwrite (db : Db) (i f dt : Int) (name : String) (n : Node)
    (hf : db.faults = []) :
    (tup_db_set_flags_by_id i f db).1 = 0
    ∧ List.Forall₂
        (fun m m1 => m1.id = m.id ∧ m1.dir = m.dir ∧ m1.type = m.type ∧ m1.name = m.name ∧
          (m.id = i → m1.flags = f) ∧ (m.id ≠ i → m1.flags = m.flags))
        db.node (tup_db_set_flags_by_id i f db).2.node
    ∧ (tup_db_set_flags_by_id i f db).2.link = db.link
    ∧ (tup_db_set_flags_by_id i f db).2.config = db.config
    ∧ (db.node.find? (fun m => decide (m.dir = dt ∧ m.name = name)) = some n → n.id ≠ -1 →
        tup_db_set_flags_by_name dt name f db = tup_db_set_flags_by_id n.id f db) := by
  rw [set_flags_by_id_ok db i f hf]
  refine ⟨rfl, ?_, rfl, rfl, ?_⟩
  · apply forall₂_map_self
    intro m _
    by_cases h : m.id = i
    · simp [h]
    · simp [h]
  · intro hfind hid
    have hb : bind_text name (-1) = name := by simp [bind_text]
    exact set_flags_by_name_present db dt name f n hf (by rw [hb]; exact hfind) hid

/-- C12 at a concrete store: the flags 7 of node 2 are replaced by 8. -/
theorem set_flags_full_overwrite_witness :
    (tup_db_set_flags_by_id 2 8
        ⟨[⟨1, 0, 2, 3, "d"⟩, ⟨2, 1, 0, 7, "f"⟩], [⟨1, 2⟩], [], 0, none, []⟩).2.node
      = [⟨1, 0, 2, 3, "d"⟩, ⟨2, 1, 0, 8, "f"⟩]
    ∧ tup_db_set_flags_by_name 1 "f" 8
        ⟨[⟨1, 0, 2, 3, "d"⟩, ⟨2, 1, 0, 7, "f"⟩], [⟨1, 2⟩], [], 0, none, []⟩
      = tup_db_set_flags_by_id 2 8
        ⟨[⟨1, 0, 2, 3, "d"⟩, ⟨2, 1, 0, 7, "f"⟩], [⟨1, 2⟩], [], 0, none, []⟩ :=
  ⟨by decide,
    (set_flags_full_overwrite
      ⟨[⟨1, 0, 2, 3, "d"⟩, ⟨2, 1, 0, 7, "f"⟩], [⟨1, 2⟩], [], 0, none, []⟩ 2 8 1 "f"
      ⟨2, 1, 0, 7, "f"⟩ rfl).2.2.2.2 (by decide) (by decide)⟩

theorem delete_links_ok (db : Db) (tupid : Int) (hf : db.faults = []) :
    tup_db_delete_links tupid db
      = (0, { db with
                link := db.link.filter
                  (fun l => !decide (l.from_id = tupid ∨ l.to_id = tupid)) }) := by
  simp only [tup_db_delete_links, sqlite3_step_nil db hf]

/-- C14 (delete_all_incident).  On an error-free backend
`tup_db_delete_links(i)` returns 0; the link table afterwards is the old one,
in its order, without the rows that have `i` as `from_id` or `to_id`: such a
row occurs 0 times, every other row as often as before.  So
`tup_db_link_exists(i, x)` and `tup_db_link_exists(x, i)` answer -1 (absent)
for every `x`.  The node and config tables are unchanged. -/
theorem delete_links_removes_incident (db : Db) (i : Int) (hf : db.faults = []) :
    (tup_db_delete_links i db).1 = 0
    ∧ (tup_db_delete_links i db).2.link
        = db.link.filter (fun l => decide (l.from_id ≠ i ∧ l.to_id ≠ i))
    ∧ (∀ l : Link, (tup_db_delete_links i db).2.link.count l
        = if l.from_id = i ∨ l.to_id = i then 0 else db.link.count l)
    ∧ (∀ x, (tup_db_link_exists i x (tup_db_delete_links i db).2).1 = -1
        ∧ (tup_db_link_exists x i (tup_db_delete_links i db).2).1 = -1)
    ∧ (tup_db_delete_links i db).2.node = db.node
    ∧ (tup_db_delete_links i db).2.config = db.config := by
  rw [delete_links_ok db i hf]
  have hfilter : db.link.filter (fun l => !decide (l.from_id = i ∨ l.to_id = i))
      = db.link.filter (fun l => decide (l.from_id ≠ i ∧ l.to_id ≠ i)) := by
    apply List.filter_congr
    intro l _
    by_cases h1 : l.from_id = i <;> by_cases h2 : l.to_id = i <;> simp [h1, h2]
  refine ⟨rfl, hfilter, ?_, ?_, rfl, rfl⟩
  · intro l
    show (db.link.filter (fun l => !decide (l.from_id = i ∨ l.to_id = i))).count l = _
    by_cases h : l.from_id = i ∨ l.to_id = i
    · rw [if_pos h]
      apply List.count_eq_zero_of_not_mem
      intro hm
      have := (List.mem_filter.mp hm).2
      simp [h] at this
    · rw [if_neg h]
      apply List.count_filter
      simp [h]
  · intro x
    constructor
    · apply link_exists_absent
      intro l hl hc
      have := (List.mem_filter.mp hl).2
      simp [hc.1] at this
    · apply link_exists_absent
      intro l hl hc
      have := (List.mem_filter.mp hl).2
      simp [hc.2] at this

/-- C14 at a concrete store: the links of node 2 are removed, the link
`(1, 3)`, there twice, stays twice. -/
theorem delete_links_removes_incident_witness :
    (tup_db_delete_links 2
        ⟨[], [⟨1, 3⟩, ⟨1, 2⟩, ⟨2, 3⟩, ⟨1, 3⟩, ⟨2, 2⟩], [], 0, none, []⟩).2.link
      = [⟨1, 3⟩, ⟨1, 3⟩] :=
  (delete_links_removes_incident
    ⟨[], [⟨1, 3⟩, ⟨1, 2⟩, ⟨2, 3⟩, ⟨1, 3⟩, ⟨2, 2⟩], [], 0, none, []⟩ 2 rfl).2.1.trans
    (by decide)

/-- C15 (flag propagation to command outputs).  On an error-free backend
`tup_db_set_cmd_output_flags(dir, f)` returns 0 and changes the node table row
by row: a row gets the flags `f` (its other columns kept) when the link table
has a row `(c, id of the row)` whose source `c` is the id of a node of type
`TUP_NODE_CMD` with directory `dir`, and stays as it is otherwise.  The link
and config tables are unchanged. -/
theorem set_cmd_output_flags_marks_outputs (K : Consts) (db : Db) (dir f : Int)
    (hf : db.faults = []) :
    (tup_db_set_cmd_output_flags K dir f db).1 = 0
    ∧ List.Forall₂
        (fun m m1 =>
          ((∃ l ∈ db.link, l.to_id = m.id ∧
              ∃ c ∈ db.node, c.id = l.from_id ∧ c.dir = dir ∧ c.type = K.TUP_NODE_CMD) →
            m1 = { m with flags := f })
          ∧ ((¬ ∃ l ∈ db.link, l.to_id = m.id ∧
              ∃ c ∈ db.node, c.id = l.from_id ∧ c.dir = dir ∧ c.type = K.TUP_NODE_CMD) →
            m1 = m))
        db.node (tup_db_set_cmd_output_flags K dir f db).2.node
    ∧ (tup_db_set_cmd_output_flags K dir f db).2.link = db.link
    ∧ (tup_db_set_cmd_output_flags K dir f db).2.config = db.config := by
  have hrun : tup_db_set_cmd_output_flags K dir f db
      = (0, { db with
                node := db.node.map (fun n =>
                  if db.link.any (fun l => decide (l.to_id = n.id) &&
                      db.node.any (fun c => decide (c.id = l.from_id ∧ c.dir = dir ∧
                        c.type = K.TUP_NODE_CMD)))
                  then { n with flags := f } else n) }) := by
    simp only [tup_db_set_cmd_output_flags, sqlite3_step_nil db hf]
  rw [hrun]
  refine ⟨rfl, ?_, rfl, rfl⟩
  apply forall₂_map_self
  intro m _
  have hiff : (db.link.any (fun l => decide (l.to_id = m.id) &&
        db.node.any (fun c => decide (c.id = l.from_id ∧ c.dir = dir ∧
          c.type = K.TUP_NODE_CMD))) = true)
      ↔ ∃ l ∈ db.link, l.to_id = m.id ∧
          ∃ c ∈ db.node, c.id = l.from_id ∧ c.dir = dir ∧ c.type = K.TUP_NODE_CMD := by
    simp only [List.any_eq_true, Bool.and_eq_true, decide_eq_true_eq]
  by_cases h : ∃ l ∈ db.link, l.to_id = m.id ∧
      ∃ c ∈ db.node, c.id = l.from_id ∧ c.dir = dir ∧ c.type = K.TUP_NODE_CMD
  · rw [if_pos (hiff.mpr h)]
    exact ⟨fun _ => rfl, fun hn => absurd h hn⟩
  · rw [if_neg (fun hc => h (hiff.mp hc))]
    exact ⟨fun hp => absurd hp h, fun _ => rfl⟩

/-- C15 at a concrete store: command 2 of directory 1 has the output 3,
command 5 of directory 4 has the output 6; the call for directory 1 marks
node 3 only. -/
theorem set_cmd_output_flags_marks_outputs_witness :
    (tup_db_set_cmd_output_flags ⟨4, 0, 2, 1⟩ 1 9
        ⟨[⟨2, 1, 1, 0, "cc"⟩, ⟨3, 1, 0, 0, "o"⟩, ⟨5, 4, 1, 0, "ld"⟩, ⟨6, 4, 0, 0, "p"⟩],
          [⟨2, 3⟩, ⟨5, 6⟩, ⟨3, 2⟩], [], 0, none, []⟩).1 = 0
    ∧ (tup_db_set_cmd_output_flags ⟨4, 0, 2, 1⟩ 1 9
        ⟨[⟨2, 1, 1, 0, "cc"⟩, ⟨3, 1, 0, 0, "o"⟩, ⟨5, 4, 1, 0, "ld"⟩, ⟨6, 4, 0, 0, "p"⟩],
          [⟨2, 3⟩, ⟨5, 6⟩, ⟨3, 2⟩], [], 0, none, []⟩).2.node
      = [⟨2, 1, 1, 0, "cc"⟩, ⟨3, 1, 0, 9, "o"⟩, ⟨5, 4, 1, 0, "ld"⟩, ⟨6, 4, 0, 0, "p"⟩] :=
  ⟨(set_cmd_output_flags_marks_outputs ⟨4, 0, 2, 1⟩
      ⟨[⟨2, 1, 1, 0, "cc"⟩, ⟨3, 1, 0, 0, "o"⟩, ⟨5, 4, 1, 0, "ld"⟩, ⟨6, 4, 0, 0, "p"⟩],
        [⟨2, 3⟩, ⟨5, 6⟩, ⟨3, 2⟩], [], 0, none, []⟩ 1 9 rfl).1,
    by decide⟩

theorem toU64_lt (x : Int) : toU64 x < 18446744073709551616 := by
  unfold toU64
  omega

theorem toU64_ofU64 (u : Nat) (h : u < 18446744073709551616) : toU64 (ofU64 u) = u := by
  unfold toU64 ofU64
  split <;> omega

theorem toU64_sql_or (a b : Int) : toU64 (sql_or a b) = toU64 a ||| toU64 b := by
  unfold sql_or
  apply toU64_ofU64
  have ha := toU64_lt a
  have hb := toU64_lt b
  exact Nat.or_lt_two_pow (n := 64) (by simpa using ha) (by simpa using hb)

/-- Or-ing the same mask in a second time changes nothing. -/
theorem sql_or_idem (a m : Int) : sql_or (sql_or a m) m = sql_or a m := by
  have h : toU64 (sql_or a m) ||| toU64 m = toU64 a ||| toU64 m := by
    rw [toU64_sql_or, Nat.lor_assoc, Nat.or_self]
  show ofU64 (toU64 (sql_or a m) ||| toU64 m) = ofU64 (toU64 a ||| toU64 m)
  rw [h]

theorem or_dircmd_flags_ok (K : Consts) (db : Db) (parent flags : Int) (hf : db.faults = []) :
    tup_db_or_dircmd_flags K parent flags db
      = (0, { db with
                node := db.node.map (fun n =>
                  if n.dir = parent ∧ n.type = K.TUP_NODE_CMD
                  then { n with flags := sql_or n.flags flags } else n) }) := by
  simp only [tup_db_or_dircmd_flags, sqlite3_step_nil db hf]

/-- C13 as stated fails for a node type other than `TUP_NODE_CMD`: the
operation has no type argument.  With command type 1 and file type 0, in a
directory 5 that holds the command `c` and the file `f`, both with flags 1,
`tup_db_or_dircmd_flags(5, 2)` gives `c` the flags 3 and leaves `f` at 1; for
the node type "file" the claim asks for the opposite. -/
theorem or_dircmd_flags_type_counterexample :
    (tup_db_or_dircmd_flags ⟨4, 0, 2, 1⟩ 5 2
        ⟨[⟨1, 5, 1, 1, "c"⟩, ⟨2, 5, 0, 1, "f"⟩], [], [], 0, none, []⟩).2.node
      = [⟨1, 5, 1, 3, "c"⟩, ⟨2, 5, 0, 1, "f"⟩]
    ∧ (tup_db_or_dircmd_flags ⟨4, 0, 2, 1⟩ 5 2
        ⟨[⟨1, 5, 1, 1, "c"⟩, ⟨2, 5, 0, 1, "f"⟩], [], [], 0, none, []⟩).2.node
      ≠ [⟨1, 5, 1, 1, "c"⟩, ⟨2, 5, 0, sql_or 1 2, "f"⟩] := by
  decide

/-- C13 amended, the node type being `TUP_NODE_CMD`.  On an error-free
backend `tup_db_or_dircmd_flags(dir, mask)` returns 0 and changes the node
table row by row: a row of type `TUP_NODE_CMD` with directory `dir` gets the
flags `old flags | mask` (bit by bit the or of the two 64-bit patterns), every
other row stays as it is; the link and config tables are unchanged; and a
second call with the same arguments returns 0 and changes nothing more. -/
theorem or_dircmd_flags_ors_commands (K : Consts) (db : Db) (dir mask : Int)
    (hf : db.faults = []) :
    (tup_db_or_dircmd_flags K dir mask db).1 = 0
    ∧ List.Forall₂
        (fun m m1 =>
          (m.dir = dir ∧ m.type = K.TUP_NODE_CMD → m1 = { m with flags := sql_or m.flags mask })
          ∧ (¬ (m.dir = dir ∧ m.type = K.TUP_NODE_CMD) → m1 = m))
        db.node (tup_db_or_dircmd_flags K dir mask db).2.node
    ∧ (∀ a k, (toU64 (sql_or a mask)).testBit k
        = ((toU64 a).testBit k || (toU64 mask).testBit k))
    ∧ (tup_db_or_dircmd_flags K dir mask db).2.link = db.link
    ∧ (tup_db_or_dircmd_flags K dir mask db).2.config = db.config
    ∧ tup_db_or_dircmd_flags K dir mask (tup_db_or_dircmd_flags K dir mask db).2
        = (0, (tup_db_or_dircmd_flags K dir mask db).2) := by
  rw [or_dircmd_flags_ok K db dir mask hf]
  refine ⟨rfl, ?_, ?_, rfl, rfl, ?_⟩
  · apply forall₂_map_self
    intro m _
    by_cases h : m.dir = dir ∧ m.type = K.TUP_NODE_CMD
    · rw [if_pos h]
      exact ⟨fun _ => rfl, fun hn => absurd h hn⟩
    · rw [if_neg h]
      exact ⟨fun hp => absurd hp h, fun _ => rfl⟩
  · intro a k
    rw [toU64_sql_or, Nat.testBit_or]
  · dsimp only
    rw [or_dircmd_flags_ok K _ dir mask]
    · simp only [List.map_map]
      congr 2
      apply List.map_congr_left
      intro m _
      simp only [Function.comp]
      by_cases h : m.dir = dir ∧ m.type = K.TUP_NODE_CMD
      · simp [h, sql_or_idem]
      · simp [h]
    · exact hf

/-- C13 amended, at a concrete store: two calls with mask 2 in directory 5. -/
theorem or_dircmd_flags_ors_commands_witness :
    (tup_db_or_dircmd_flags ⟨4, 0, 2, 1⟩ 5 2
        ⟨[⟨1, 5, 1, 1, "c"⟩, ⟨2, 5, 0, 1, "f"⟩, ⟨3, 6, 1, 0, "e"⟩], [], [], 0, none, []⟩).1 = 0
    ∧ tup_db_or_dircmd_flags ⟨4, 0, 2, 1⟩ 5 2
        (tup_db_or_dircmd_flags ⟨4, 0, 2, 1⟩ 5 2
          ⟨[⟨1, 5, 1, 1, "c"⟩, ⟨2, 5, 0, 1, "f"⟩, ⟨3, 6, 1, 0, "e"⟩], [], [], 0, none, []⟩).2
      = (0, ⟨[⟨1, 5, 1, 3, "c"⟩, ⟨2, 5, 0, 1, "f"⟩, ⟨3, 6, 1, 0, "e"⟩], [], [], 0, none, []⟩) := by
  have h := or_dircmd_flags_ors_commands ⟨4, 0, 2, 1⟩
    ⟨[⟨1, 5, 1, 1, "c"⟩, ⟨2, 5, 0, 1, "f"⟩, ⟨3, 6, 1, 0, "e"⟩], [], [], 0, none, []⟩ 5 2 rfl
  exact ⟨h.1, h.2.2.2.2.2.trans (by decide)⟩

/-! ## Schema creation -/

/-- C11 as stated fails: on a new file, with the fourth statement (the first
`create index`) failing, `tup_db_create` returns -1 and the file keeps the
three tables the earlier statements created. -/
theorem tup_db_create_partial_counterexample :
    tup_db_create 1 ⟨[], true, ⟨[], [], [], 0, none, [false, false, false, true]⟩⟩
      = (-1, ⟨["node", "link", "config"], true, ⟨[], [], [], 0, none, []⟩⟩) := by
  decide

/-- C11 amended.  On a new file, when the first `k` of the ten statements
succeed and the next one fails (after the `PRAGMA` of `no_sync` when `db_sync`
is 0), `tup_db_create` returns -1 and nothing is undone: the file holds the
tables and indexes and the config rows that these `k` statements created, so
it is as before the call only for `k = 0`. -/
theorem tup_db_create_keeps_earlier (db_sync : Int) (k : Nat) (sync : Bool) (rest : List Bool)
    (hk : k < 10) :
    tup_db_create db_sync
        ⟨[], sync, ⟨[], [], [], 0, none,
          (if db_sync = 0 then [false] else []) ++ List.replicate k false ++ true :: rest⟩⟩
      = (-1, ⟨created_names (sql.take k), if db_sync = 0 then false else sync,
          ⟨[], [], seeded_rows (sql.take k), 0, none, rest⟩⟩)
    ∧ (1 ≤ k → created_names (sql.take k) ≠ []) := by
  constructor
  · by_cases h0 : db_sync = 0
    · subst h0
      interval_cases k <;> rfl
    · simp only [tup_db_create, if_neg h0, List.nil_append]
      interval_cases k <;> rfl
  · intro h1
    interval_cases k <;> decide

/-- C11 amended, at the failure of the last statement: the seven tables and
indexes and two of the three config rows are there. -/
theorem tup_db_create_keeps_earlier_witness :
    tup_db_create 1
        ⟨[], true, ⟨[], [], [], 0, none,
          [false, false, false, false, false, false, false, false, false, true]⟩⟩
      = (-1, ⟨["node", "link", "config", "node_dir_index", "node_flags_index", "link_index",
            "link_index2"], true,
          ⟨[], [], [⟨"show_progress", "1"⟩, ⟨"keep_going", "0"⟩], 0, none, []⟩⟩) :=
  (tup_db_create_keeps_earlier 1 9 true [] (by decide)).1

/-! ## Termination of the cascade -/

theorem foldlM_erase {α : Type} (step : Db → α → Option Db)
    (stepV : Db × List Int → α → Option (Db × List Int))
    (h : ∀ d tr a, (stepV (d, tr) a).map (fun p => p.1) = step d a) (l : List α) (d : Db)
    (tr : List Int) :
    (l.foldlM stepV (d, tr)).map (fun p => p.1) = l.foldlM step d := by
  induction l generalizing d tr with
  | nil => simp
  | cons a rest ih =>
    simp only [List.foldlM_cons]
    have ha := h d tr a
    cases hv : stepV (d, tr) a with
    | none =>
      rw [hv] at ha
      simp only [Option.map_none'] at ha
      rw [← ha]
      simp
    | some p =>
      rw [hv] at ha
      simp only [Option.map_some'] at ha
      rw [← ha]
      simp only [Option.bind_eq_bind, Option.some_bind]
      exact ih p.1 p.2

/-- The record of calls does not change the recursion: without it
`delete_dir_visits` is `delete_dir`. -/
theorem delete_dir_visits_erase (K : Consts) (fuel : Nat) (dt : Int) (db : Db) :
    (delete_dir_visits K fuel dt db).map (fun r => (r.1, r.2.1)) = delete_dir K fuel dt db := by
  induction fuel generalizing dt db with
  | zero => rfl
  | succ k ih =>
    unfold delete_dir_visits delete_dir
    rcases sqlite3_step db with ⟨ok, db1⟩
    cases ok
    · rfl
    · simp only
      rcases get_recurse_dirs K dt []
        { db1 with
            node := db1.node.map (fun n =>
              if n.dir = wrap32 dt then { n with flags := K.TUP_FLAGS_DELETE } else n) }
        with ⟨rc, subdir_list, db2⟩
      simp only
      split
      · rfl
      · have hfold := foldlM_erase
          (fun d id => (delete_dir K k id d).map (fun r => r.2))
          (fun (acc : Db × List Int) id =>
            (delete_dir_visits K k id acc.1).map (fun r => (r.2.1, acc.2 ++ r.2.2)))
          (by
            intro d tr a
            show ((delete_dir_visits K k a d).map (fun r => (r.2.1, tr ++ r.2.2))).map
                (fun p => p.1) = (delete_dir K k a d).map (fun r => r.2)
            rw [← ih a d]
            simp only [Option.map_map]
            rfl)
          subdir_list db2 [dt]
        rw [← hfold]
        simp only [Option.map_map]
        rfl

/-- The list of child directories is read off the skeleton. -/
theorem subdirs_eq_skeleton (K : Consts) (dt : Int) (ns : List Node) :
    subdirs K dt ns
      = (((skeleton ns).filter
            (fun t => decide (t.2.1 = dt ∧ t.2.2 = K.TUP_NODE_DIR))).map (fun t => t.1)).reverse := by
  unfold subdirs skeleton
  rw [foldl_cons_ids, List.filter_map, List.map_map, List.append_nil]
  rfl

theorem subdirs_of_skeleton (K : Consts) (dt : Int) (a b : List Node)
    (h : skeleton a = skeleton b) : subdirs K dt a = subdirs K dt b := by
  rw [subdirs_eq_skeleton, subdirs_eq_skeleton, h]

/-- Overwriting flags does not change the skeleton. -/
theorem skeleton_set_flags (c : Node → Prop) [DecidablePred c] (f : Int) (ns : List Node) :
    skeleton (ns.map (fun n => if c n then { n with flags := f } else n)) = skeleton ns := by
  unfold skeleton
  rw [List.map_map]
  apply List.map_congr_left
  intro n _
  simp only [Function.comp]
  split <;> rfl

/-- A loop in `Option` whose every step returns and keeps a property returns
and keeps it. -/
theorem foldlM_returns {α β : Type} (P : β → Prop) (step : β → α → Option β) (l : List α)
    (hstep : ∀ a ∈ l, ∀ d, P d → ∃ d1, step d a = some d1 ∧ P d1) (d : β) (hd : P d) :
    ∃ d1, l.foldlM step d = some d1 ∧ P d1 := by
  induction l generalizing d with
  | nil => exact ⟨d, rfl, hd⟩
  | cons a rest ih =>
    obtain ⟨d1, h1, hp1⟩ := hstep a (List.mem_cons_self _ _) d hd
    obtain ⟨d2, h2, hp2⟩ := ih (fun b hb => hstep b (List.mem_cons_of_mem _ hb)) d1 hp1
    refine ⟨d2, ?_, hp2⟩
    simp only [List.foldlM_cons, h1, Option.bind_eq_bind, Option.some_bind]
    exact h2

/-- The recursion `delete_dir` returns, whatever the backend answers, when
its depth bound is at least the number of directory levels below `dt`; it
never changes the skeleton of the node table. -/
theorem delete_dir_returns (K : Consts) (ns0 : List Node) (dt : Int) (h : Nat)
    (hnest : NestedWithin K ns0 dt h) :
    ∀ (fuel : Nat) (db : Db), h ≤ fuel → skeleton db.node = skeleton ns0 →
      ∃ r, delete_dir K fuel dt db = some r ∧ skeleton r.2.node = skeleton ns0 := by
  induction hnest with
  | intro d h _ ih =>
    intro fuel db hfuel hsk
    obtain ⟨k, rfl⟩ : ∃ k, fuel = k + 1 := ⟨fuel - 1, by omega⟩
    have hk : h ≤ k := by omega
    unfold delete_dir
    have hfr := (sqlite3_step_frame db).1
    rcases hs : sqlite3_step db with ⟨ok, db1⟩
    rw [hs] at hfr
    simp only at hfr
    cases ok
    · exact ⟨(-1, db1), rfl, by rw [hfr]; exact hsk⟩
    · simp only
      have hsk1 : skeleton (db1.node.map (fun n =>
          if n.dir = wrap32 d then { n with flags := K.TUP_FLAGS_DELETE } else n))
          = skeleton ns0 := by
        rw [skeleton_set_flags, hfr]
        exact hsk
      unfold get_recurse_dirs
      have hfr2 := (sqlite3_step_frame
        { db1 with
            node := db1.node.map (fun n =>
              if n.dir = wrap32 d then { n with flags := K.TUP_FLAGS_DELETE } else n) }).1
      rcases hs2 : sqlite3_step
        { db1 with
            node := db1.node.map (fun n =>
              if n.dir = wrap32 d then { n with flags := K.TUP_FLAGS_DELETE } else n) }
        with ⟨ok2, db2⟩
      rw [hs2] at hfr2
      simp only at hfr2
      have hsk2 : skeleton db2.node = skeleton ns0 := by
        rw [hfr2]
        exact hsk1
      cases ok2
      · exact ⟨(-1, db2), by simp, hsk2⟩
      · simp only
        rw [if_neg (by decide)]
        have hsub : (db2.node.filter
            (fun n => decide (n.dir = d ∧ n.type = K.TUP_NODE_DIR))).foldl
            (fun l n => n.id :: l) [] = subdirs K d ns0 :=
          subdirs_of_skeleton K d db2.node ns0 hsk2
        rw [hsub]
        obtain ⟨d1, hrun, hp⟩ := foldlM_returns (fun x : Db => skeleton x.node = skeleton ns0)
          (fun x id => (delete_dir K k id x).map (fun r => r.2)) (subdirs K d ns0)
          (by
            intro c hc x hx
            obtain ⟨n, hn, hd, ht, rfl⟩ := (mem_subdirs K d c ns0).mp hc
            obtain ⟨r, hr, hskr⟩ := ih n hn hd ht k x hk hx
            exact ⟨r.2, by simp [hr], hskr⟩)
          db2 hsk2
        exact ⟨(0, d1), by simp [hrun], hp⟩

/-- A directory reached from `d` is `d` or a directory node lying in a
directory reached from `d`. -/
theorem reached_tail (K : Consts) (ns : List Node) (d x : Int) (h : Reached K ns d x) :
    x = d ∨ ∃ m ∈ ns, m.id = x ∧ m.type = K.TUP_NODE_DIR ∧ Reached K ns d m.dir := by
  induction h with
  | root d => exact Or.inl rfl
  | step d x n hn hd ht _ ih =>
    right
    rcases ih with rfl | ⟨m, hm, hid, hty, hr⟩
    · exact ⟨n, hn, rfl, ht, by rw [hd]; exact Reached.root d⟩
    · exact ⟨m, hm, hid, hty, Reached.step d m.dir n hn hd ht hr⟩

/-- With ids as keys, the directories from which `x` is reached form a chain. -/
theorem reached_chain (K : Consts) (ns : List Node)
    (hkey : ∀ m1 ∈ ns, ∀ m2 ∈ ns, m1.id = m2.id → m1 = m2) (a b x : Int)
    (ha : Reached K ns a x) (hb : Reached K ns b x) :
    Reached K ns a b ∨ Reached K ns b a := by
  induction ha generalizing b with
  | root d => exact Or.inr hb
  | step d x n hn hd ht _ ih =>
    rcases ih b hb with h1 | h2
    · exact Or.inl (Reached.step d b n hn hd ht h1)
    · rcases reached_tail K ns b n.id h2 with e | ⟨m, hm, hid, _, hr⟩
      · left
        rw [← e]
        exact Reached.step d n.id n hn hd ht (Reached.root n.id)
      · have hmn : m = n := hkey m hm n hn hid
        rw [hmn, hd] at hr
        exact Or.inr hr

/-- In an acyclic tree with ids as keys, two different directories of the
same directory have no directory below both. -/
theorem children_disjoint (K : Consts) (ns : List Node)
    (hkey : ∀ m1 ∈ ns, ∀ m2 ∈ ns, m1.id = m2.id → m1 = m2) (hacyc : Acyclic K ns)
    (d c1 c2 x : Int) (h1 : c1 ∈ subdirs K d ns) (h2 : c2 ∈ subdirs K d ns) (hne : c1 ≠ c2)
    (hr1 : Reached K ns c1 x) (hr2 : Reached K ns c2 x) : False := by
  obtain ⟨n1, hn1, hd1, ht1, rfl⟩ := (mem_subdirs K d c1 ns).mp h1
  obtain ⟨n2, hn2, hd2, ht2, rfl⟩ := (mem_subdirs K d c2 ns).mp h2
  rcases reached_chain K ns hkey n1.id n2.id x hr1 hr2 with h | h
  · rcases reached_tail K ns n1.id n2.id h with e | ⟨m, hm, hid, _, hr⟩
    · exact hne e.symm
    · have hmn : m = n2 := hkey m hm n2 hn2 hid
      rw [hmn, hd2, ← hd1] at hr
      exact hacyc n1 hn1 ht1 hr
  · rcases reached_tail K ns n2.id n1.id h with e | ⟨m, hm, hid, _, hr⟩
    · exact hne e
    · have hmn : m = n1 := hkey m hm n1 hn1 hid
      rw [hmn, hd1, ← hd2] at hr
      exact hacyc n2 hn2 ht2 hr

/-- With ids as keys, no directory is listed twice among the directories of a
directory. -/
theorem subdirs_nodup (K : Consts) (d : Int) (ns : List Node)
    (hids : (ns.map (fun n => n.id)).Nodup) : (subdirs K d ns).Nodup := by
  unfold subdirs
  rw [foldl_cons_ids, List.append_nil, List.nodup_reverse]
  exact List.Nodup.sublist (List.Sublist.map _ (List.filter_sublist _)) hids

/-- The loop of `delete_dir_visits` over a duplicate-free list of
directories with pairwise disjoint subtrees, given what one call does. -/
theorem delete_dir_visits_loop (K : Consts) (ns0 : List Node) (fuel : Nat) (cs : List Int)
    (hnd : cs.Nodup)
    (hdisj : ∀ c1 ∈ cs, ∀ c2 ∈ cs, c1 ≠ c2 → ∀ x,
      Reached K ns0 c1 x → Reached K ns0 c2 x → False)
    (hcall : ∀ c ∈ cs, ∀ db : Db, db.faults = [] → skeleton db.node = skeleton ns0 →
      ∃ db1 tr, delete_dir_visits K fuel c db = some (0, db1, tr) ∧ db1.faults = [] ∧
        skeleton db1.node = skeleton ns0 ∧ (∀ x, x ∈ tr ↔ Reached K ns0 c x) ∧ tr.Nodup)
    (db : Db) (tr0 : List Int) (hf : db.faults = [])
    (hsk : skeleton db.node = skeleton ns0) :
    ∃ db1 tr,
      cs.foldlM
          (fun (acc : Db × List Int) id =>
            (delete_dir_visits K fuel id acc.1).map (fun r => (r.2.1, acc.2 ++ r.2.2)))
          (db, tr0)
        = some (db1, tr0 ++ tr)
      ∧ db1.faults = [] ∧ skeleton db1.node = skeleton ns0
      ∧ (∀ x, x ∈ tr ↔ ∃ c ∈ cs, Reached K ns0 c x) ∧ tr.Nodup := by
  induction cs generalizing db tr0 with
  | nil => exact ⟨db, [], by simp, hf, hsk, by simp, List.nodup_nil⟩
  | cons c rest ih =>
    obtain ⟨db1, tr1, hrun1, hf1, hsk1, hmem1, hnd1⟩ :=
      hcall c (List.mem_cons_self _ _) db hf hsk
    have hcr : c ∉ rest := (List.nodup_cons.mp hnd).1
    obtain ⟨db2, tr2, hrun2, hf2, hsk2, hmem2, hnd2⟩ :=
      ih (List.nodup_cons.mp hnd).2
        (fun c1 h1 c2 h2 => hdisj c1 (List.mem_cons_of_mem _ h1) c2 (List.mem_cons_of_mem _ h2))
        (fun c2 h2 => hcall c2 (List.mem_cons_of_mem _ h2)) db1 (tr0 ++ tr1) hf1 hsk1
    refine ⟨db2, tr1 ++ tr2, ?_, hf2, hsk2, ?_, ?_⟩
    · simp only [List.foldlM_cons, hrun1, Option.map_some', Option.bind_eq_bind,
        Option.some_bind]
      rw [hrun2, List.append_assoc]
    · intro x
      simp only [List.mem_append, hmem1, hmem2, List.mem_cons, exists_eq_or_imp]
    · rw [List.nodup_append]
      refine ⟨hnd1, hnd2, ?_⟩
      intro x hx1 hx2
      obtain ⟨c2, hc2, hr2⟩ := (hmem2 x).mp hx2
      have hne : c ≠ c2 := fun e => hcr (e ▸ hc2)
      exact hdisj c (List.mem_cons_self _ _) c2 (List.mem_cons_of_mem _ hc2) hne x
        ((hmem1 x).mp hx1) hr2

/-- The calls of the recursion on an error-free backend, in an acyclic tree
with ids as keys: within a depth bound of at least the number of directory
levels below `dt`, `delete_dir` is called once for every directory reached
from `dt` and for nothing else, and returns 0. -/
theorem delete_dir_visits_once (K : Consts) (ns0 : List Node)
    (hids : (ns0.map (fun n => n.id)).Nodup) (hacyc : Acyclic K ns0) (dt : Int) (h : Nat)
    (hnest : NestedWithin K ns0 dt h) :
    ∀ (fuel : Nat) (db : Db), h ≤ fuel → db.faults = [] → skeleton db.node = skeleton ns0 →
      ∃ db1 tr, delete_dir_visits K fuel dt db = some (0, db1, tr) ∧ db1.faults = [] ∧
        skeleton db1.node = skeleton ns0 ∧ (∀ x, x ∈ tr ↔ Reached K ns0 dt x) ∧ tr.Nodup := by
  have hkey : ∀ m1 ∈ ns0, ∀ m2 ∈ ns0, m1.id = m2.id → m1 = m2 :=
    List.inj_on_of_nodup_map hids
  induction hnest with
  | intro d h _ ih =>
    intro fuel db hfuel hf hsk
    obtain ⟨k, rfl⟩ : ∃ k, fuel = k + 1 := ⟨fuel - 1, by omega⟩
    have hk : h ≤ k := by omega
    have hsk1 : skeleton (db.node.map (fun n =>
        if n.dir = wrap32 d then { n with flags := K.TUP_FLAGS_DELETE } else n))
        = skeleton ns0 := by
      rw [skeleton_set_flags]
      exact hsk
    have hf1 : ({ db with
        node := db.node.map (fun n =>
          if n.dir = wrap32 d then { n with flags := K.TUP_FLAGS_DELETE } else n) } : Db).faults
        = [] := hf
    have hsub : subdirs K d (db.node.map (fun n =>
        if n.dir = wrap32 d then { n with flags := K.TUP_FLAGS_DELETE } else n))
        = subdirs K d ns0 := subdirs_of_skeleton K d _ ns0 hsk1
    obtain ⟨db1, tr, hrun, hfd, hskd, hmem, hnd⟩ :=
      delete_dir_visits_loop K ns0 k (subdirs K d ns0) (subdirs_nodup K d ns0 hids)
        (fun c1 h1 c2 h2 hne x => children_disjoint K ns0 hkey hacyc d c1 c2 x h1 h2 hne)
        (by
          intro c hc x hfx hskx
          obtain ⟨n, hn, hd, ht, rfl⟩ := (mem_subdirs K d c ns0).mp hc
          exact ih n hn hd ht k x hk hfx hskx)
        { db with
            node := db.node.map (fun n =>
              if n.dir = wrap32 d then { n with flags := K.TUP_FLAGS_DELETE } else n) }
        [d] hf1 hsk1
    refine ⟨db1, d :: tr, ?_, hfd, hskd, ?_, ?_⟩
    · simp only [delete_dir_visits, sqlite3_step_nil db hf, get_recurse_dirs_ok K d _ hf1, hsub]
      rw [if_neg (by decide), hrun]
      rfl
    · intro x
      rw [reached_iff, List.mem_cons, hmem]
    · rw [List.nodup_cons]
      refine ⟨?_, hnd⟩
      intro hd
      obtain ⟨c, hc, hr⟩ := (hmem d).mp hd
      obtain ⟨n, hn, hdn, ht, rfl⟩ := (mem_subdirs K d c ns0).mp hc
      rw [← hdn] at hr
      exact hacyc n hn ht hr

/-- Along a descending chain of directories, every member lies below a
directory node of the directory the chain starts in. -/
theorem chain_reached (K : Consts) (ns : List Node) (cs : List Int) (d : Int)
    (hc : List.Chain (fun a b => b ∈ subdirs K a ns) d cs) :
    ∀ x ∈ cs, ∃ n ∈ ns, n.dir = d ∧ n.type = K.TUP_NODE_DIR ∧ Reached K ns n.id x := by
  induction cs generalizing d with
  | nil =>
    intro x hx
    cases hx
  | cons a t ih =>
    rw [List.chain_cons] at hc
    obtain ⟨n, hn, hd, ht, hid⟩ := (mem_subdirs K d a ns).mp hc.1
    intro x hx
    rcases List.mem_cons.mp hx with rfl | hx
    · exact ⟨n, hn, hd, ht, by rw [hid]; exact Reached.root x⟩
    · obtain ⟨m, hm, hmd, hmt, hr⟩ := ih a hc.2 x hx
      refine ⟨n, hn, hd, ht, ?_⟩
      rw [hid]
      exact Reached.step a x m hm hmd hmt hr

/-- In an acyclic tree a descending chain of directories has no repetition. -/
theorem chain_nodup (K : Consts) (ns : List Node) (hacyc : Acyclic K ns) (cs : List Int)
    (d : Int) (hc : List.Chain (fun a b => b ∈ subdirs K a ns) d cs) : cs.Nodup := by
  induction cs generalizing d with
  | nil => exact List.nodup_nil
  | cons a t ih =>
    rw [List.chain_cons] at hc
    rw [List.nodup_cons]
    refine ⟨?_, ih a hc.2⟩
    intro ha
    obtain ⟨n, hn, hd, ht, hr⟩ := chain_reached K ns t a hc.2 a ha
    rw [← hd] at hr
    exact hacyc n hn ht hr

theorem chain_subset (K : Consts) (ns : List Node) (cs : List Int) (d : Int)
    (hc : List.Chain (fun a b => b ∈ subdirs K a ns) d cs) :
    cs ⊆ ns.map (fun n => n.id) := by
  induction cs generalizing d with
  | nil => exact List.nil_subset _
  | cons a t ih =>
    rw [List.chain_cons] at hc
    obtain ⟨n, hn, _, _, hid⟩ := (mem_subdirs K d a ns).mp hc.1
    intro x hx
    rcases List.mem_cons.mp hx with rfl | hx
    · exact List.mem_map.mpr ⟨n, hn, hid⟩
    · exact ih a hc.2 hx

/-- When the tree below `d` has more than `h` levels, a descending chain of
`h` directories starts in `d`. -/
theorem exists_chain (K : Consts) (ns : List Node) (h : Nat) (d : Int)
    (hn : ¬ NestedWithin K ns d h) :
    ∃ cs, cs.length = h ∧ List.Chain (fun a b => b ∈ subdirs K a ns) d cs := by
  induction h generalizing d with
  | zero => exact ⟨[], rfl, List.Chain.nil⟩
  | succ k ih =>
    have hex : ∃ n ∈ ns, n.dir = d ∧ n.type = K.TUP_NODE_DIR ∧ ¬ NestedWithin K ns n.id k := by
      by_contra hno
      apply hn
      apply NestedWithin.intro
      intro n hmem hd ht
      by_contra hc
      exact hno ⟨n, hmem, hd, ht, hc⟩
    obtain ⟨n, hmem, hd, ht, hnn⟩ := hex
    obtain ⟨cs, hlen, hch⟩ := ih n.id hnn
    refine ⟨n.id :: cs, by simp [hlen], ?_⟩
    rw [List.chain_cons]
    exact ⟨(mem_subdirs K d n.id ns).mpr ⟨n, hmem, hd, ht, rfl⟩, hch⟩

/-- In a finite acyclic tree the directories below any `d` nest within one
level more than there are rows. -/
theorem nested_of_acyclic (K : Consts) (ns : List Node) (hacyc : Acyclic K ns) (d : Int) :
    NestedWithin K ns d (ns.length + 1) := by
  by_contra hn
  obtain ⟨cs, hlen, hch⟩ := exists_chain K ns (ns.length + 1) d hn
  have hle := (List.subperm_of_subset (chain_nodup K ns hacyc cs d hch)
    (chain_subset K ns cs d hch)).length_le
  rw [hlen, List.length_map] at hle
  omega

theorem reached_rank_le (K : Consts) (ns : List Node) (rank : Int → Nat)
    (hrank : ∀ n ∈ ns, n.type = K.TUP_NODE_DIR → rank n.id < rank n.dir) (d x : Int)
    (h : Reached K ns d x) : rank x ≤ rank d := by
  induction h with
  | root d => exact le_refl _
  | step d x n hn hd ht _ ih =>
    have := hrank n hn ht
    rw [hd] at this
    omega

/-- A rank that decreases from every directory to the directories in it shows
that the tree is acyclic. -/
theorem acyclic_of_rank (K : Consts) (ns : List Node) (rank : Int → Nat)
    (hrank : ∀ n ∈ ns, n.type = K.TUP_NODE_DIR → rank n.id < rank n.dir) : Acyclic K ns := by
  intro n hn ht hr
  have h1 := reached_rank_le K ns rank hrank n.id n.dir hr
  have h2 := hrank n hn ht
  omega

theorem set_flags_by_id_skeleton (tupid flags : Int) (db : Db) :
    skeleton (tup_db_set_flags_by_id tupid flags db).2.node = skeleton db.node := by
  unfold tup_db_set_flags_by_id
  have hfr := (sqlite3_step_frame db).1
  rcases hs : sqlite3_step db with ⟨ok, db1⟩
  rw [hs] at hfr
  simp only at hfr
  cases ok
  · simp only
    rw [hfr]
  · simp only
    rw [skeleton_set_flags (fun n => n.id = tupid), hfr]

/-- C16 (cascade termination).  In a store whose dir relation over
directory-type nodes is acyclic, the directories below any `dt` nest within
finitely many levels (at most one more than there are rows).  Whenever they
nest within `h` levels, the recursion of `delete_dir` started by
`tup_db_delete_dir(dt)` returns within the recursion depth `h` (and within
every larger bound), whatever the backend answers.  On an error-free backend
with ids as keys it returns 0, and the record of its calls holds every
directory reached from `dt` exactly once and nothing else. -/
theorem cascade_terminates (K : Consts) (db : Db) (dt : Int) (hacyc : Acyclic K db.node) :
    NestedWithin K db.node dt (db.node.length + 1)
    ∧ ∀ h, NestedWithin K db.node dt h → ∀ fuel, h ≤ fuel →
        (∃ r, tup_db_delete_dir K fuel dt db = some r)
        ∧ (db.faults = [] → (db.node.map (fun n => n.id)).Nodup →
            ∃ db1 tr,
              delete_dir_visits K fuel dt
                  (tup_db_set_flags_by_id dt K.TUP_FLAGS_DELETE db).2 = some (0, db1, tr)
              ∧ tup_db_delete_dir K fuel dt db = some (0, db1)
              ∧ (∀ x, x ∈ tr ↔ Reached K db.node dt x) ∧ tr.Nodup) := by
  refine ⟨nested_of_acyclic K db.node hacyc dt, ?_⟩
  intro h hnest fuel hfuel
  have hsk := set_flags_by_id_skeleton dt K.TUP_FLAGS_DELETE db
  constructor
  · unfold tup_db_delete_dir
    rcases hsf : tup_db_set_flags_by_id dt K.TUP_FLAGS_DELETE db with ⟨rc, db0⟩
    rw [hsf] at hsk
    simp only at hsk ⊢
    split
    · exact ⟨_, rfl⟩
    · obtain ⟨r, hr, _⟩ := delete_dir_returns K db.node dt h hnest fuel db0 hfuel hsk
      exact ⟨r, hr⟩
  · intro hf hids
    have hconn := (set_flags_by_id_conn dt K.TUP_FLAGS_DELETE db).2 hf
    obtain ⟨db1, tr, hrun, _, _, hmem, hnd⟩ :=
      delete_dir_visits_once K db.node hids hacyc dt h hnest fuel _ hfuel hconn hsk
    refine ⟨db1, tr, hrun, ?_, hmem, hnd⟩
    have herase := delete_dir_visits_erase K fuel dt
      (tup_db_set_flags_by_id dt K.TUP_FLAGS_DELETE db).2
    rw [hrun] at herase
    simp only [Option.map_some'] at herase
    unfold tup_db_delete_dir
    rw [set_flags_by_id_ok db dt _ hf] at herase ⊢
    simp only
    rw [if_neg (by decide)]
    exact herase.symm

/-- C16 at the tree `A > B > C` with one file in each directory: the cascade
from `A` returns within the depth bound 7 (six rows and one). -/
theorem cascade_terminates_witness :
    ∃ r, tup_db_delete_dir ⟨4, 0, 2, 1⟩ 7 1
        ⟨[⟨1, 0, 2, 0, "A"⟩, ⟨2, 1, 2, 0, "B"⟩, ⟨3, 2, 2, 0, "C"⟩, ⟨4, 1, 0, 0, "fa"⟩,
          ⟨5, 2, 0, 0, "fb"⟩, ⟨6, 3, 0, 0, "fc"⟩], [], [], 0, none, []⟩ = some r :=
  have hacyc : Acyclic ⟨4, 0, 2, 1⟩
      [⟨1, 0, 2, 0, "A"⟩, ⟨2, 1, 2, 0, "B"⟩, ⟨3, 2, 2, 0, "C"⟩, ⟨4, 1, 0, 0, "fa"⟩,
        ⟨5, 2, 0, 0, "fb"⟩, ⟨6, 3, 0, 0, "fc"⟩] :=
    acyclic_of_rank _ _ (fun i => (10 - i).toNat) (by decide)
  let h := cascade_terminates ⟨4, 0, 2, 1⟩
    ⟨[⟨1, 0, 2, 0, "A"⟩, ⟨2, 1, 2, 0, "B"⟩, ⟨3, 2, 2, 0, "C"⟩, ⟨4, 1, 0, 0, "fa"⟩,
      ⟨5, 2, 0, 0, "fb"⟩, ⟨6, 3, 0, 0, "fc"⟩], [], [], 0, none, []⟩ 1 hacyc
  (h.2 7 h.1 7 (le_refl 7)).1

end Tup
